import Mathlib

/-!
# Verification of `gedcom_reader.py`

A shallow embedding of the two core functions of the repository:

* `load_gedcom` — the record extractor: a stateful line-oriented pass over
  the (already regex-split) lines of a GEDCOM file, producing an individual
  registry (`gedcom_dict`), a parentage table (`trio_dict`) and the id of
  the unique person of interest.
* `find_persons_less_than_x_meioses_from_poi` — the pedigree pruner: builds
  an undirected graph from the parentage table, computes unweighted
  shortest-path distances from the POI (the source uses scipy's
  Bellman–Ford with `unweighted=True`; here modelled by `n` rounds of edge
  relaxation, which computes the same shortest-path distances), keeps the
  ids at distance strictly below the cutoff, and repairs the parentage
  table.

Python dictionaries are modelled as association lists with
insert-or-update-first-occurrence semantics; Python's `None` id is modelled
by `Option String` (`PId`); code that can raise (`KeyError`, the POI-count
check, `list.index` failure) returns `Except`/`Option`.
-/

set_option autoImplicit false

namespace Gedcom

/-- A GEDCOM id as the Python code handles it: either a real string token or
Python's `None` (the id group of the line regex is optional, and
`current_person` starts as `None`). -/
abbrev PId := Option String

/-- One entry of `gedcom_dict`: the four-element list
`[name, sex, placeholder status, person-of-interest status]`. -/
structure GEntry where
  name : String
  sex : String
  isPlaceholder : Bool
  isPoi : Bool
deriving Repr, DecidableEq

/-- One entry of `trio_dict`: the `(mother id, father id)` pair, each
possibly `None`. -/
abbrev Trio := PId × PId

/-- Association list standing in for a Python dict keyed by ids. -/
abbrev GedD := List (PId × GEntry)

/-- Association list standing in for the parentage dict. -/
abbrev TrioD := List (PId × Trio)

/-- Python dict assignment `d[k] = v`: update the value at the first
occurrence of `k`, or append a fresh entry. -/
def insertA {α : Type} (l : List (PId × α)) (k : PId) (v : α) : List (PId × α) :=
  match l with
  | [] => [(k, v)]
  | (k', v') :: rest => if k' = k then (k, v) :: rest else (k', v') :: insertA rest k v

/-- Python dict lookup `d[k]` (as an `Option`; the source raises `KeyError`
where this is `none`). -/
def lookupA {α : Type} (l : List (PId × α)) (k : PId) : Option α :=
  match l with
  | [] => none
  | (k', v') :: rest => if k' = k then some v' else lookupA rest k

/-- The key list of a dict, in insertion order (`d.keys()`). -/
def keysA {α : Type} (l : List (PId × α)) : List PId := l.map Prod.fst

/-- Python `list.index` as an `Option` (`ValueError` becomes `none`). -/
def idxOf? (l : List PId) (k : PId) : Option Nat :=
  match l with
  | [] => none
  | k' :: rest => if k' = k then some 0 else (idxOf? rest k).map (· + 1)

/-- A word character in the sense of the `\w` class of the source's
(ASCII) regexes. -/
def isWordChar (c : Char) : Bool := c.isAlphanum || c = '_'

/-- `re.match(r"@(\w+)@", data)` on the character list of `data`: an
anchored match of an `@`-delimited word, returning the captured word. -/
def refIdAux : List Char → Option String
  | '@' :: rest =>
    match rest.takeWhile isWordChar with
    | [] => none
    | ws =>
      match rest.dropWhile isWordChar with
      | '@' :: _ => some (String.mk ws)
      | _ => none
  | _ => none

/-- `re.match(r"@(\w+)@", data)` on a string. -/
def refId (data : String) : Option String := refIdAux data.data

/-- Python's substring test `sub in s` on character lists. -/
def containsSub (sub : List Char) : List Char → Bool
  | [] => sub.isEmpty
  | c :: rest => sub.isPrefixOf (c :: rest) || containsSub sub rest

/-- Python's substring test `sub in s` on strings. -/
def strContains (s sub : String) : Bool := containsSub sub.data s.data

/-- The synthetic id `'Placeholder%d' % n`. -/
def mkPlaceholder (n : Nat) : String := "Placeholder" ++ toString n

/-- One input line after the source's line regex
`(\d+) (@(\w+)@ )?(\w+)( (.*))?` has split it: the level, the optional
`@id@` group, the tag, and the optional data remainder. (Lines that do not
match the regex at all are skipped by the source and are not modelled.) -/
structure Line where
  level : Nat
  id : PId
  tag : String
  data : Option String
deriving Repr, DecidableEq

/-- The mutable parse state of `load_gedcom`, carried across lines. -/
structure ExtState where
  mother : PId
  father : PId
  poiIds : List PId
  placeholdersUsed : Nat
  adopted : List PId
  currentPerson : PId
  gedcom : GedD
  trio : TrioD
deriving Repr, DecidableEq

/-- The initial parse state of `load_gedcom`. -/
def initState : ExtState :=
  { mother := none, father := none, poiIds := [], placeholdersUsed := 0,
    adopted := [], currentPerson := none, gedcom := [], trio := [] }

/-- The `if mother is None` block of the CHIL branch: synthesize a female
placeholder when the current family has no recorded mother. -/
def fillMother (s : ExtState) : ExtState :=
  match s.mother with
  | some _ => s
  | none =>
    let p := mkPlaceholder (s.placeholdersUsed + 1)
    { s with mother := some p, placeholdersUsed := s.placeholdersUsed + 1,
             gedcom := insertA s.gedcom (some p) ⟨p, "F", true, false⟩,
             trio := insertA s.trio (some p) (none, none) }

/-- The `if father is None` block of the CHIL branch: synthesize a male
placeholder when the current family has no recorded father. -/
def fillFather (s : ExtState) : ExtState :=
  match s.father with
  | some _ => s
  | none =>
    let p := mkPlaceholder (s.placeholdersUsed + 1)
    { s with father := some p, placeholdersUsed := s.placeholdersUsed + 1,
             gedcom := insertA s.gedcom (some p) ⟨p, "M", true, false⟩,
             trio := insertA s.trio (some p) (none, none) }

/-- The body of the CHIL branch: skip adopted children, synthesize
placeholder parents for the missing roles (mother first, as in the
source), and record the child's trio. -/
def stepChil (s : ExtState) (childId : String) : ExtState :=
  if some childId ∈ s.adopted then s
  else
    let s2 := fillFather (fillMother s)
    { s2 with trio := insertA s2.trio (some childId) (s2.mother, s2.father) }

/-- Processing of one line of the input: the per-line dispatch of
`load_gedcom` (lines 73–142 of the source). `Except.error` models a raised
exception (the `KeyError` of `gedcom_dict[current_person]` when no current
person is registered). -/
def step (s : ExtState) (l : Line) (poiName : String) : Except String ExtState :=
  match l.data with
  | none =>
    if l.tag = "INDI" then
      .ok { s with gedcom := insertA s.gedcom l.id ⟨"", "U", false, false⟩,
                   trio := insertA s.trio l.id (none, none),
                   currentPerson := l.id }
    else if l.tag = "FAM" then
      .ok { s with mother := none, father := none }
    else .ok s
  | some data =>
    match refId data with
    | some rid =>
      if l.tag = "HUSB" then .ok { s with father := some rid }
      else if l.tag = "WIFE" then .ok { s with mother := some rid }
      else if l.tag = "CHIL" then .ok (stepChil s rid)
      else .ok s
    | none =>
      if l.tag = "NAME" ∧ s.currentPerson ≠ none then
        match lookupA s.gedcom s.currentPerson with
        | none => .error "KeyError"
        | some e =>
          if strContains data poiName then
            .ok { s with
              gedcom := insertA s.gedcom s.currentPerson { e with name := data, isPoi := true },
              poiIds := s.poiIds ++ [s.currentPerson] }
          else
            .ok { s with gedcom := insertA s.gedcom s.currentPerson { e with name := data } }
      else if l.tag = "SEX" then
        match lookupA s.gedcom s.currentPerson with
        | none => .error "KeyError"
        | some e =>
          .ok { s with gedcom := insertA s.gedcom s.currentPerson { e with sex := data } }
      else if l.tag = "PEDI" ∧ data = "adopted" then
        .ok { s with adopted := s.adopted ++ [s.currentPerson] }
      else .ok s

/-- The line loop of `load_gedcom`. -/
def processLines (s : ExtState) (poiName : String) : List Line → Except String ExtState
  | [] => .ok s
  | l :: ls =>
    match step s l poiName with
    | .ok s' => processLines s' poiName ls
    | .error e => .error e

/-- `load_gedcom`: run the line loop, then enforce that exactly one
person-of-interest name match was found; on success return
`(gedcom_dict, trio_dict, poi_ids[0])`. -/
def load_gedcom (lines : List Line) (poiName : String) :
    Except String (GedD × TrioD × PId) :=
  match processLines initState poiName lines with
  | .error e => .error e
  | .ok s =>
    match s.poiIds with
    | [p] => .ok (s.gedcom, s.trio, p)
    | _ => .error "Expected to find one person with name matching"

/-! ## The pedigree pruner -/

/-- One relaxation of a directed edge `(a, b)` (weight 1): improve the
tentative distance at `b` through `a`. `none` is the infinite distance of
an unreached node. -/
def relaxEdge (d : List (Option Nat)) (e : Nat × Nat) : List (Option Nat) :=
  match d.getD e.1 none with
  | none => d
  | some k =>
    match d.getD e.2 none with
    | none => d.set e.2 (some (k + 1))
    | some m => if k + 1 < m then d.set e.2 (some (k + 1)) else d

/-- One full round of relaxation over the edge list. -/
def relaxAll (es : List (Nat × Nat)) (d : List (Option Nat)) : List (Option Nat) :=
  es.foldl relaxEdge d

/-- `r` rounds of relaxation: for `r = n` (the node count) this computes
the unweighted single-source shortest-path distances that the source
obtains from `scipy.sparse.csgraph.bellman_ford(..., unweighted=True)`. -/
def bfIter : Nat → List (Nat × Nat) → List (Option Nat) → List (Option Nat)
  | 0, _, d => d
  | r + 1, es, d => bfIter r es (relaxAll es d)

/-- The initial tentative distances: `0` at the source, infinite elsewhere. -/
def initDist (n src : Nat) : List (Option Nat) :=
  (List.range n).map (fun i => if i = src then some 0 else none)

/-- The comparison `meioses[i] < x`: scipy's infinite distance compares
greater than every cutoff. -/
def distLt (d : Option Nat) (x : Nat) : Bool :=
  match d with
  | some k => k < x
  | none => false

/-- The adjacency-building loop of the pruner: for every table entry whose
mother field is set, the four directed entries
`(i, mi), (i, fi), (mi, i), (fi, i)` are appended (`rows`/`cols` of the
source); `list.index` failure on an id missing from the key list is a
raised `ValueError`, modelled by `none`. -/
def buildEdges (ids : List PId) : List (PId × Trio) → Nat → Option (List (Nat × Nat))
  | [], _ => some []
  | (_, (m, f)) :: rest, i =>
    match m with
    | none => buildEdges ids rest (i + 1)
    | some _ =>
      match idxOf? ids m, idxOf? ids f with
      | some mi, some fi =>
        match buildEdges ids rest (i + 1) with
        | some es => some ((i, mi) :: (i, fi) :: (mi, i) :: (fi, i) :: es)
        | none => none
      | _, _ => none

/-- The distance-filter phase of the pruner: the key list, the POI index,
the adjacency list, the Bellman–Ford distances, and the list
`gedcom_ids_to_keep` of ids whose distance is strictly below `x`. -/
def pruneKeep (t : TrioD) (x : Nat) (poi : PId) : Option (List PId) :=
  match idxOf? (keysA t) poi with
  | none => none
  | some pi =>
    match buildEdges (keysA t) t 0 with
    | none => none
    | some es =>
      let dist := bfIter (keysA t).length es (initDist (keysA t).length pi)
      some (((keysA t).enum.filter (fun p => distLt (dist.getD p.1 none) x)).map Prod.snd)

/-- One iteration of the repair loop, for the kept id `v`: copy `v`'s
registry entry, then re-add a discarded parent whenever the other parent
was kept, mirroring lines 186–203 of the source. `none` models a raised
`KeyError`. -/
def repairStep (t : TrioD) (g : GedD) (keep : List PId) (acc : TrioD × GedD) (v : PId) :
    Option (TrioD × GedD) :=
  match lookupA g v with
  | none => none
  | some ge =>
    let ng := insertA acc.2 v ge
    match lookupA t v with
    | none => none
    | some (m, f) =>
      if m ∈ keep then
        if f ∉ keep then
          match lookupA g f with
          | none => none
          | some gf =>
            some (insertA (insertA acc.1 f (none, none)) v (m, f), insertA ng f gf)
        else
          some (insertA acc.1 v (m, f), ng)
      else if f ∈ keep then
        match lookupA g m with
        | none => none
        | some gm =>
          some (insertA (insertA acc.1 m (none, none)) v (m, f), insertA ng m gm)
      else
        some (insertA acc.1 v (none, none), ng)

/-- The repair loop over the kept ids. -/
def repairLoop (t : TrioD) (g : GedD) (keep : List PId) :
    List PId → TrioD × GedD → Option (TrioD × GedD)
  | [], acc => some acc
  | v :: rest, acc =>
    match repairStep t g keep acc v with
    | some acc' => repairLoop t g keep rest acc'
    | none => none

/-- `find_persons_less_than_x_meioses_from_poi`: distance filter followed by
the repair pass, returning `(new_trio_dict, new_gedcom_dict)`. -/
def find_persons_less_than_x_meioses_from_poi (t : TrioD) (g : GedD) (x : Nat) (poi : PId) :
    Option (TrioD × GedD) :=
  match pruneKeep t x poi with
  | none => none
  | some keep => repairLoop t g keep keep ([], [])

/-! ## File-derived identifiers -/

/-- The id tokens a single line contributes to the file: the `@id@` group
of the line itself and an `@id@` reference at the start of its data. -/
def lineIds (l : Line) : List String :=
  (match l.id with
   | some s => [s]
   | none => []) ++
  (match l.data with
   | some d =>
     match refId d with
     | some r => [r]
     | none => []
   | none => [])

/-- All file-derived identifiers of an input. -/
def fileIds (lines : List Line) : List String :=
  lines.foldr (fun l acc => lineIds l ++ acc) []

/-! ## Concrete inputs used by the counterexamples and witnesses -/

/-- Abbreviation for building a line. -/
def lineOf (lv : Nat) (id : PId) (tag : String) (data : Option String) : Line :=
  ⟨lv, id, tag, data⟩

/-- A three-person file: POI `P1` ("Jane") is the mother of `C1`, whose
father is `G1` ("Frank"). -/
def exFam : List Line := [
  lineOf 0 (some "P1") "INDI" none,
  lineOf 1 none "NAME" (some "Jane"),
  lineOf 0 (some "C1") "INDI" none,
  lineOf 1 none "NAME" (some "Carl"),
  lineOf 0 (some "G1") "INDI" none,
  lineOf 1 none "NAME" (some "Frank"),
  lineOf 0 (some "F1") "FAM" none,
  lineOf 1 none "WIFE" (some "@P1@"),
  lineOf 1 none "HUSB" (some "@G1@"),
  lineOf 1 none "CHIL" (some "@C1@")]

/-- The registry extracted from `exFam`. -/
def exFamG : GedD := [
  (some "P1", ⟨"Jane", "U", false, true⟩),
  (some "C1", ⟨"Carl", "U", false, false⟩),
  (some "G1", ⟨"Frank", "U", false, false⟩)]

/-- The parentage table extracted from `exFam`. -/
def exFamT : TrioD := [
  (some "P1", (none, none)),
  (some "C1", (some "P1", some "G1")),
  (some "G1", (none, none))]

/-- The parentage table produced by pruning `exFam` at cutoff 2. -/
def exFamNewT : TrioD := [
  (some "P1", (none, none)),
  (some "G1", (none, none)),
  (some "C1", (some "P1", some "G1"))]

/-- The registry produced by pruning `exFam` at cutoff 2. -/
def exFamNewG : GedD := [
  (some "P1", ⟨"Jane", "U", false, true⟩),
  (some "C1", ⟨"Carl", "U", false, false⟩),
  (some "G1", ⟨"Frank", "U", false, false⟩)]

/-- A file in which the single individual `P1` has two NAME lines, both
containing the POI substring "Jane". -/
def exPoi2 : List Line := [
  lineOf 0 (some "P1") "INDI" none,
  lineOf 1 none "NAME" (some "Jane Doe"),
  lineOf 1 none "NAME" (some "Jane D")]

/-- The parse state after the line loop of `exPoi2`: two POI match events
for the one individual. -/
def exPoi2S : ExtState :=
  { mother := none, father := none, poiIds := [some "P1", some "P1"],
    placeholdersUsed := 0, adopted := [], currentPerson := some "P1",
    gedcom := [(some "P1", ⟨"Jane D", "U", false, true⟩)],
    trio := [(some "P1", (none, none))] }

/-- A file that declares an individual with the file-derived id
`Placeholder1` and a family whose child needs synthesized parents. -/
def exPh : List Line := [
  lineOf 0 (some "Placeholder1") "INDI" none,
  lineOf 0 (some "P1") "INDI" none,
  lineOf 1 none "NAME" (some "Jane"),
  lineOf 0 (some "F1") "FAM" none,
  lineOf 1 none "CHIL" (some "@P1@")]

/-- The registry extracted from `exPh`: the synthesized placeholder
clobbered the file-declared individual `Placeholder1`. -/
def exPhG : GedD := [
  (some "Placeholder1", ⟨"Placeholder1", "F", true, false⟩),
  (some "P1", ⟨"Jane", "U", false, true⟩),
  (some "Placeholder2", ⟨"Placeholder2", "M", true, false⟩)]

/-- The parentage table extracted from `exPh`. -/
def exPhT : TrioD := [
  (some "Placeholder1", (none, none)),
  (some "P1", (some "Placeholder1", some "Placeholder2")),
  (some "Placeholder2", (none, none))]

/-- A file whose only individual carries a SEX line with data `Banana`. -/
def exSex : List Line := [
  lineOf 0 (some "P1") "INDI" none,
  lineOf 1 none "NAME" (some "Jane"),
  lineOf 1 none "SEX" (some "Banana")]

/-- The registry extracted from `exSex`. -/
def exSexG : GedD := [(some "P1", ⟨"Jane", "Banana", false, true⟩)]

/-- A file whose family record references the parents `X` and `Y` that
have no INDI record of their own. -/
def exRef : List Line := [
  lineOf 0 (some "P1") "INDI" none,
  lineOf 1 none "NAME" (some "Jane"),
  lineOf 0 (some "F1") "FAM" none,
  lineOf 1 none "HUSB" (some "@X@"),
  lineOf 1 none "WIFE" (some "@Y@"),
  lineOf 1 none "CHIL" (some "@P1@")]

/-- The registry extracted from `exRef`. -/
def exRefG : GedD := [(some "P1", ⟨"Jane", "U", false, true⟩)]

/-- The parentage table extracted from `exRef`: it references `X` and `Y`,
which are not among its keys. -/
def exRefT : TrioD := [(some "P1", (some "Y", some "X"))]

/-- A file with one family of two children and no declared parents. -/
def exTwoChil : List Line := [
  lineOf 0 (some "P1") "INDI" none,
  lineOf 1 none "NAME" (some "Jane"),
  lineOf 0 (some "C2") "INDI" none,
  lineOf 0 (some "F1") "FAM" none,
  lineOf 1 none "CHIL" (some "@P1@"),
  lineOf 1 none "CHIL" (some "@C2@")]

/-- A file whose individual `C1` is marked adopted inside its own record
and later listed as a child of a family. -/
def exAdopt : List Line := [
  lineOf 0 (some "C1") "INDI" none,
  lineOf 1 none "NAME" (some "Jane"),
  lineOf 1 none "PEDI" (some "adopted"),
  lineOf 0 (some "F1") "FAM" none,
  lineOf 1 none "WIFE" (some "@M1@"),
  lineOf 1 none "HUSB" (some "@H1@"),
  lineOf 1 none "CHIL" (some "@C1@")]

/-! ## Association-list lemmas -/

theorem lookupA_insertA_self {α : Type} (l : List (PId × α)) (k : PId) (v : α) :
    lookupA (insertA l k v) k = some v := by
  induction l with
  | nil => simp [insertA, lookupA]
  | cons p rest ih =>
    by_cases h : p.1 = k
    · simp [insertA, lookupA, h]
    · simp [insertA, lookupA, h, ih]

theorem lookupA_insertA_ne {α : Type} (l : List (PId × α)) (k k' : PId) (v : α)
    (h : k' ≠ k) : lookupA (insertA l k v) k' = lookupA l k' := by
  induction l with
  | nil =>
    have hne : ¬(k = k') := fun hh => h hh.symm
    simp [insertA, lookupA, hne]
  | cons p rest ih =>
    obtain ⟨a, b⟩ := p
    by_cases hk : a = k
    · subst hk
      have hne : ¬(a = k') := fun hh => h hh.symm
      simp [insertA, lookupA, hne]
    · by_cases hk' : a = k'
      · subst hk'
        simp [insertA, lookupA, hk]
      · simp [insertA, lookupA, hk, hk', ih]

theorem mem_insertA {α : Type} (l : List (PId × α)) (k : PId) (v : α) (q : PId × α)
    (h : q ∈ insertA l k v) : q = (k, v) ∨ q ∈ l := by
  induction l with
  | nil => simpa [insertA] using h
  | cons p rest ih =>
    obtain ⟨a, b⟩ := p
    by_cases hk : a = k
    · rw [show insertA ((a, b) :: rest) k v = (k, v) :: rest by simp [insertA, hk]] at h
      rcases List.mem_cons.mp h with h | h
      · exact Or.inl h
      · exact Or.inr (List.mem_cons_of_mem _ h)
    · rw [show insertA ((a, b) :: rest) k v = (a, b) :: insertA rest k v by
        simp [insertA, hk]] at h
      rcases List.mem_cons.mp h with h | h
      · exact Or.inr (h ▸ List.mem_cons_self _ _)
      · rcases ih h with h' | h'
        · exact Or.inl h'
        · exact Or.inr (List.mem_cons_of_mem _ h')

theorem keysA_insertA {α : Type} (l : List (PId × α)) (k k' : PId) (v : α) :
    k' ∈ keysA (insertA l k v) ↔ k' = k ∨ k' ∈ keysA l := by
  induction l with
  | nil => simp [insertA, keysA]
  | cons p rest ih =>
    obtain ⟨a, b⟩ := p
    by_cases hk : a = k
    · subst hk
      rw [show insertA ((a, b) :: rest) a v = (a, v) :: rest by simp [insertA]]
      simp only [keysA, List.map_cons, List.mem_cons]
      tauto
    · rw [show insertA ((a, b) :: rest) k v = (a, b) :: insertA rest k v by
        simp [insertA, hk]]
      simp only [keysA, List.map_cons, List.mem_cons] at *
      tauto

theorem mem_keysA_of_lookupA {α : Type} (l : List (PId × α)) (k : PId) (v : α)
    (h : lookupA l k = some v) : k ∈ keysA l := by
  induction l with
  | nil => simp [lookupA] at h
  | cons p rest ih =>
    by_cases hk : p.1 = k
    · simp [keysA, hk.symm]
    · simp only [lookupA, if_neg hk] at h
      exact List.mem_cons_of_mem _ (ih h)

theorem lookupA_isSome_of_mem {α : Type} (l : List (PId × α)) (k : PId)
    (h : k ∈ keysA l) : (lookupA l k).isSome := by
  induction l with
  | nil => simp [keysA] at h
  | cons p rest ih =>
    by_cases hk : p.1 = k
    · simp [lookupA, hk]
    · simp only [keysA, List.map_cons, List.mem_cons] at h
      rcases h with h | h
      · exact absurd h.symm hk
      · simpa [lookupA, hk] using ih h

theorem lookupA_mem {α : Type} (l : List (PId × α)) (k : PId) (v : α)
    (h : lookupA l k = some v) : (k, v) ∈ l := by
  induction l with
  | nil => simp [lookupA] at h
  | cons p rest ih =>
    by_cases hk : p.1 = k
    · simp [lookupA, hk] at h
      subst hk
      rw [← h]
      exact List.mem_cons_self p rest
    · simp only [lookupA, if_neg hk] at h
      exact List.mem_cons_of_mem _ (ih h)

theorem idxOf?_isSome_of_mem (l : List PId) (k : PId) (h : k ∈ l) :
    (idxOf? l k).isSome := by
  induction l with
  | nil => simp at h
  | cons p rest ih =>
    by_cases hk : p = k
    · simp [idxOf?, hk]
    · rcases List.mem_cons.mp h with h' | h'
      · exact absurd h'.symm hk
      · simp only [idxOf?, if_neg hk]
        rcases Option.isSome_iff_exists.mp (ih h') with ⟨n, hn⟩
        simp [hn]

/-! ## Line-loop lemmas -/

theorem processLines_append (s : ExtState) (poiName : String) (a b : List Line) :
    processLines s poiName (a ++ b) =
      match processLines s poiName a with
      | .ok s' => processLines s' poiName b
      | .error e => .error e := by
  induction a generalizing s with
  | nil => simp [processLines]
  | cons l ls ih =>
    simp only [List.cons_append, processLines]
    cases step s l poiName with
    | ok s' => exact ih s'
    | error e => rfl

/-- Invariant propagation along the line loop, with a per-line side
condition. -/
theorem processLines_inv (P : ExtState → Prop) (cond : Line → Prop) (poiName : String)
    (hstep : ∀ s l s', cond l → P s → step s l poiName = .ok s' → P s') :
    ∀ (ls : List Line) (s s' : ExtState), (∀ l ∈ ls, cond l) → P s →
      processLines s poiName ls = .ok s' → P s' := by
  intro ls
  induction ls with
  | nil =>
    intro s s' _ hP h
    simp only [processLines] at h
    cases h
    exact hP
  | cons l rest ih =>
    intro s s' hcond hP h
    simp only [processLines] at h
    cases hstep' : step s l poiName with
    | error e => rw [hstep'] at h; cases h
    | ok s₁ =>
      rw [hstep'] at h
      exact ih s₁ s' (fun l' hl' => hcond l' (List.mem_cons_of_mem _ hl'))
        (hstep s l s₁ (hcond l (List.mem_cons_self _ _)) hP hstep') h

/-- Exhaustive description of the successful transitions of `step`: any
line either opens an individual, opens a family, sets a parent, records a
child, stores a name (with or without a POI match), stores a sex, marks an
adoption, or leaves the state unchanged. -/
theorem step_shape (s : ExtState) (l : Line) (poi : String) (s' : ExtState)
    (h : step s l poi = .ok s') :
    (l.data = none ∧ l.tag = "INDI" ∧
      s' = { s with gedcom := insertA s.gedcom l.id ⟨"", "U", false, false⟩,
                    trio := insertA s.trio l.id (none, none), currentPerson := l.id }) ∨
    (l.data = none ∧ l.tag = "FAM" ∧ s' = { s with mother := none, father := none }) ∨
    (∃ d rid, l.data = some d ∧ refId d = some rid ∧ l.tag = "HUSB" ∧
      s' = { s with father := some rid }) ∨
    (∃ d rid, l.data = some d ∧ refId d = some rid ∧ l.tag = "WIFE" ∧
      s' = { s with mother := some rid }) ∨
    (∃ d rid, l.data = some d ∧ refId d = some rid ∧ l.tag = "CHIL" ∧
      s' = stepChil s rid) ∨
    (∃ d e, l.data = some d ∧ refId d = none ∧ l.tag = "NAME" ∧ s.currentPerson ≠ none ∧
      lookupA s.gedcom s.currentPerson = some e ∧
      ((strContains d poi = true ∧
        s' = { s with
          gedcom := insertA s.gedcom s.currentPerson { e with name := d, isPoi := true },
          poiIds := s.poiIds ++ [s.currentPerson] }) ∨
       (strContains d poi = false ∧
        s' = { s with gedcom := insertA s.gedcom s.currentPerson { e with name := d } }))) ∨
    (∃ d e, l.data = some d ∧ refId d = none ∧ l.tag = "SEX" ∧
      lookupA s.gedcom s.currentPerson = some e ∧
      s' = { s with gedcom := insertA s.gedcom s.currentPerson { e with sex := d } }) ∨
    (∃ d, l.data = some d ∧ refId d = none ∧ l.tag = "PEDI" ∧ d = "adopted" ∧
      s' = { s with adopted := s.adopted ++ [s.currentPerson] }) ∨
    s' = s := by
  obtain ⟨lv, lid, ltag, ldata⟩ := l
  simp only [step] at h
  split at h
  · -- DATA absent
    split at h
    next hI =>
      cases h
      exact Or.inl ⟨rfl, hI, rfl⟩
    next hI =>
      split at h
      next hF =>
        cases h
        exact Or.inr (Or.inl ⟨rfl, hF, rfl⟩)
      next hF =>
        cases h
        exact Or.inr (Or.inr (Or.inr (Or.inr (Or.inr (Or.inr (Or.inr (Or.inr rfl)))))))
  · -- DATA present
    rename_i d
    split at h
    next rid href =>
      split at h
      next hH =>
        cases h
        exact Or.inr (Or.inr (Or.inl ⟨d, rid, rfl, href, hH, rfl⟩))
      next hH =>
        split at h
        next hW =>
          cases h
          exact Or.inr (Or.inr (Or.inr (Or.inl ⟨d, rid, rfl, href, hW, rfl⟩)))
        next hW =>
          split at h
          next hC =>
            cases h
            exact Or.inr (Or.inr (Or.inr (Or.inr (Or.inl ⟨d, rid, rfl, href, hC, rfl⟩))))
          next hC =>
            cases h
            exact Or.inr (Or.inr (Or.inr (Or.inr (Or.inr (Or.inr (Or.inr (Or.inr rfl)))))))
    next href =>
      split at h
      next hN =>
        split at h
        next hlk => cases h
        next e hlk =>
          split at h
          next hc =>
            cases h
            exact Or.inr (Or.inr (Or.inr (Or.inr (Or.inr (Or.inl
              ⟨d, e, rfl, href, hN.1, hN.2, hlk, Or.inl ⟨hc, rfl⟩⟩)))))
          next hc =>
            cases h
            exact Or.inr (Or.inr (Or.inr (Or.inr (Or.inr (Or.inl
              ⟨d, e, rfl, href, hN.1, hN.2, hlk,
                Or.inr ⟨Bool.eq_false_iff.mpr hc, rfl⟩⟩)))))
      next hN =>
        split at h
        next hS =>
          split at h
          next hlk => cases h
          next e hlk =>
            cases h
            exact Or.inr (Or.inr (Or.inr (Or.inr (Or.inr (Or.inr (Or.inl
              ⟨d, e, rfl, href, hS, hlk, rfl⟩))))))
        next hS =>
          split at h
          next hP =>
            cases h
            exact Or.inr (Or.inr (Or.inr (Or.inr (Or.inr (Or.inr (Or.inr (Or.inl
              ⟨d, rfl, href, hP.1, hP.2, rfl⟩)))))))
          next hP =>
            cases h
            exact Or.inr (Or.inr (Or.inr (Or.inr (Or.inr (Or.inr (Or.inr (Or.inr rfl)))))))

/-! ## Placeholder and CHIL-branch lemmas -/

theorem placeholder_pfx_mk (n : Nat) :
    "Placeholder".data.isPrefixOf (mkPlaceholder n).data = true := by
  rw [mkPlaceholder, String.data_append]
  exact List.isPrefixOf_iff_prefix.mpr (List.prefix_append _ _)

theorem fillMother_of_some (s : ExtState) (a : String) (hm : s.mother = some a) :
    fillMother s = s := by
  unfold fillMother
  rw [hm]

theorem fillFather_of_some (s : ExtState) (b : String) (hf : s.father = some b) :
    fillFather s = s := by
  unfold fillFather
  rw [hf]

theorem fillMother_father (s : ExtState) : (fillMother s).father = s.father := by
  unfold fillMother
  split <;> rfl

theorem fillMother_currentPerson (s : ExtState) :
    (fillMother s).currentPerson = s.currentPerson := by
  unfold fillMother
  split <;> rfl

theorem fillMother_adopted (s : ExtState) : (fillMother s).adopted = s.adopted := by
  unfold fillMother
  split <;> rfl

theorem fillMother_poiIds (s : ExtState) : (fillMother s).poiIds = s.poiIds := by
  unfold fillMother
  split <;> rfl

theorem fillMother_mother_isSome (s : ExtState) : ∃ m, (fillMother s).mother = some m := by
  unfold fillMother
  cases hm : s.mother with
  | some a => exact ⟨a, hm⟩
  | none => exact ⟨_, rfl⟩

theorem fillFather_mother (s : ExtState) : (fillFather s).mother = s.mother := by
  unfold fillFather
  split <;> rfl

theorem fillFather_currentPerson (s : ExtState) :
    (fillFather s).currentPerson = s.currentPerson := by
  unfold fillFather
  split <;> rfl

theorem fillFather_adopted (s : ExtState) : (fillFather s).adopted = s.adopted := by
  unfold fillFather
  split <;> rfl

theorem fillFather_poiIds (s : ExtState) : (fillFather s).poiIds = s.poiIds := by
  unfold fillFather
  split <;> rfl

theorem fillFather_father_isSome (s : ExtState) : ∃ f, (fillFather s).father = some f := by
  unfold fillFather
  cases hf : s.father with
  | some b => exact ⟨b, hf⟩
  | none => exact ⟨_, rfl⟩

theorem mem_trio_fillMother (s : ExtState) (q : PId × Trio)
    (h : q ∈ (fillMother s).trio) : q ∈ s.trio ∨ q.2 = (none, none) := by
  unfold fillMother at h
  cases hm : s.mother with
  | some a =>
    rw [hm] at h
    exact Or.inl h
  | none =>
    rw [hm] at h
    rcases mem_insertA _ _ _ _ h with h' | h'
    · exact Or.inr (by rw [h'])
    · exact Or.inl h'

theorem mem_trio_fillFather (s : ExtState) (q : PId × Trio)
    (h : q ∈ (fillFather s).trio) : q ∈ s.trio ∨ q.2 = (none, none) := by
  unfold fillFather at h
  cases hf : s.father with
  | some b =>
    rw [hf] at h
    exact Or.inl h
  | none =>
    rw [hf] at h
    rcases mem_insertA _ _ _ _ h with h' | h'
    · exact Or.inr (by rw [h'])
    · exact Or.inl h'

theorem mem_gedcom_fillMother (s : ExtState) (q : PId × GEntry)
    (h : q ∈ (fillMother s).gedcom) :
    q ∈ s.gedcom ∨
      ∃ p, q = (some p, ⟨p, "F", true, false⟩) ∧
        "Placeholder".data.isPrefixOf p.data = true := by
  unfold fillMother at h
  cases hm : s.mother with
  | some a =>
    rw [hm] at h
    exact Or.inl h
  | none =>
    rw [hm] at h
    rcases mem_insertA _ _ _ _ h with h' | h'
    · exact Or.inr ⟨_, h', placeholder_pfx_mk _⟩
    · exact Or.inl h'

theorem mem_gedcom_fillFather (s : ExtState) (q : PId × GEntry)
    (h : q ∈ (fillFather s).gedcom) :
    q ∈ s.gedcom ∨
      ∃ p, q = (some p, ⟨p, "M", true, false⟩) ∧
        "Placeholder".data.isPrefixOf p.data = true := by
  unfold fillFather at h
  cases hf : s.father with
  | some b =>
    rw [hf] at h
    exact Or.inl h
  | none =>
    rw [hf] at h
    rcases mem_insertA _ _ _ _ h with h' | h'
    · exact Or.inr ⟨_, h', placeholder_pfx_mk _⟩
    · exact Or.inl h'

theorem mem_trio_stepChil (s : ExtState) (c : String) (q : PId × Trio)
    (h : q ∈ (stepChil s c).trio) :
    q ∈ s.trio ∨ q.2 = (none, none) ∨ ∃ a b, q.2 = (some a, some b) := by
  unfold stepChil at h
  split at h
  · exact Or.inl h
  · rcases mem_insertA _ _ _ _ h with h' | h'
    · right; right
      obtain ⟨m, hm⟩ := fillFather_mother (fillMother s) ▸ fillMother_mother_isSome s
      obtain ⟨f, hf⟩ := fillFather_father_isSome (fillMother s)
      exact ⟨m, f, by rw [h', hm, hf]⟩
    · rcases mem_trio_fillFather _ _ h' with h'' | h''
      · rcases mem_trio_fillMother _ _ h'' with h3 | h3
        · exact Or.inl h3
        · exact Or.inr (Or.inl h3)
      · exact Or.inr (Or.inl h'')

theorem mem_gedcom_stepChil (s : ExtState) (c : String) (q : PId × GEntry)
    (h : q ∈ (stepChil s c).gedcom) :
    q ∈ s.gedcom ∨
      ∃ p sx, q = (some p, ⟨p, sx, true, false⟩) ∧
        "Placeholder".data.isPrefixOf p.data = true := by
  unfold stepChil at h
  split at h
  · exact Or.inl h
  · simp only at h
    rcases mem_gedcom_fillFather _ _ h with h' | h'
    · rcases mem_gedcom_fillMother _ _ h' with h'' | h''
      · exact Or.inl h''
      · obtain ⟨p, hp, hpre⟩ := h''
        exact Or.inr ⟨p, "F", hp, hpre⟩
    · obtain ⟨p, hp, hpre⟩ := h'
      exact Or.inr ⟨p, "M", hp, hpre⟩

theorem stepChil_currentPerson (s : ExtState) (c : String) :
    (stepChil s c).currentPerson = s.currentPerson := by
  unfold stepChil
  split
  · rfl
  · simp only
    rw [show ({ fillFather (fillMother s) with
        trio := insertA (fillFather (fillMother s)).trio (some c)
          ((fillFather (fillMother s)).mother, (fillFather (fillMother s)).father)
          } : ExtState).currentPerson = (fillFather (fillMother s)).currentPerson from rfl,
      fillFather_currentPerson, fillMother_currentPerson]

theorem stepChil_adopted (s : ExtState) (c : String) :
    (stepChil s c).adopted = s.adopted := by
  unfold stepChil
  split
  · rfl
  · simp only
    rw [show ({ fillFather (fillMother s) with
        trio := insertA (fillFather (fillMother s)).trio (some c)
          ((fillFather (fillMother s)).mother, (fillFather (fillMother s)).father)
          } : ExtState).adopted = (fillFather (fillMother s)).adopted from rfl,
      fillFather_adopted, fillMother_adopted]

theorem stepChil_poiIds (s : ExtState) (c : String) :
    (stepChil s c).poiIds = s.poiIds := by
  unfold stepChil
  split
  · rfl
  · simp only
    rw [show ({ fillFather (fillMother s) with
        trio := insertA (fillFather (fillMother s)).trio (some c)
          ((fillFather (fillMother s)).mother, (fillFather (fillMother s)).father)
          } : ExtState).poiIds = (fillFather (fillMother s)).poiIds from rfl,
      fillFather_poiIds, fillMother_poiIds]

theorem stepChil_parents_preserved (s : ExtState) (c : String) (a b : String)
    (hm : s.mother = some a) (hf : s.father = some b) :
    stepChil s c = s ∨
      stepChil s c = { s with trio := insertA s.trio (some c) (some a, some b) } := by
  unfold stepChil
  split
  · exact Or.inl rfl
  · right
    rw [fillMother_of_some s a hm, fillFather_of_some s b hf]
    simp only [hm, hf]

theorem fillMother_lookup_gedcom_none (s : ExtState) :
    lookupA (fillMother s).gedcom none = lookupA s.gedcom none := by
  unfold fillMother
  split
  · rfl
  · exact lookupA_insertA_ne _ _ _ _ (by simp)

theorem fillFather_lookup_gedcom_none (s : ExtState) :
    lookupA (fillFather s).gedcom none = lookupA s.gedcom none := by
  unfold fillFather
  split
  · rfl
  · exact lookupA_insertA_ne _ _ _ _ (by simp)

theorem stepChil_lookup_gedcom_none (s : ExtState) (c : String) :
    lookupA (stepChil s c).gedcom none = lookupA s.gedcom none := by
  unfold stepChil
  split
  · rfl
  · simp only
    rw [show ({ fillFather (fillMother s) with
        trio := insertA (fillFather (fillMother s)).trio (some c)
          ((fillFather (fillMother s)).mother, (fillFather (fillMother s)).father)
          } : ExtState).gedcom = (fillFather (fillMother s)).gedcom from rfl,
      fillFather_lookup_gedcom_none, fillMother_lookup_gedcom_none]

/-! ## C7 -/

/-- C7 counterexample: the claim says a processed SEX line always leaves
one of the three normalized values `M`/`F`/`Unknown` as the stored sex.
On `exSex` the SEX line carries the data `Banana`, and the extracted
registry stores exactly the string `Banana` — no normalization happens. -/
theorem c7_counterexample :
    load_gedcom exSex "Jane" = .ok (exSexG, [(some "P1", (none, none))], some "P1") ∧
    lookupA exSexG (some "P1") = some ⟨"Jane", "Banana", false, true⟩ ∧
    "Banana" ≠ "M" ∧ "Banana" ≠ "F" ∧ "Banana" ≠ "Unknown" :=
  ⟨rfl, rfl, by decide, by decide, by decide⟩

/-- C7 (amended): for every processed line with TAG = SEX and DATA present
(and not shaped as an `@id@` reference), the individual's stored sex after
that line is exactly the raw DATA string — the code performs no
normalization, and the default sex is the string `U`, not `Unknown`. -/
theorem c7_sex_stored_raw (s : ExtState) (poiName : String) (l : Line) (d : String)
    (s' : ExtState) (e : GEntry)
    (htag : l.tag = "SEX") (hdata : l.data = some d) (href : refId d = none)
    (he : lookupA s.gedcom s.currentPerson = some e)
    (hstep : step s l poiName = .ok s') :
    lookupA s'.gedcom s.currentPerson = some { e with sex := d } := by
  obtain ⟨lv, lid, ltag, ldata⟩ := l
  simp only at htag hdata
  subst htag
  subst hdata
  simp only [step] at hstep
  split at hstep
  next rid href2 =>
    rw [href] at href2
    cases href2
  next href2 =>
    split at hstep
    next hN => exact absurd hN.1 (by decide)
    next hN =>
      split at hstep
      next hS =>
        split at hstep
        next hlk =>
          rw [he] at hlk
          cases hlk
        next e2 hlk =>
          rw [he] at hlk
          cases hlk
          cases hstep
          exact lookupA_insertA_self _ _ _
      next hS => exact absurd (by trivial) hS

/-- The parse state just before the SEX line of `exSex`. -/
def c7WitS : ExtState :=
  { mother := none, father := none, poiIds := [some "P1"], placeholdersUsed := 0,
    adopted := [], currentPerson := some "P1",
    gedcom := [(some "P1", ⟨"Jane", "U", false, true⟩)],
    trio := [(some "P1", (none, none))] }

/-- Witness for `c7_sex_stored_raw` at the concrete SEX line of `exSex`. -/
theorem c7_witness :
    lookupA ([(some "P1", (⟨"Jane", "Banana", false, true⟩ : GEntry))]) (some "P1") =
      some ⟨"Jane", "Banana", false, true⟩ :=
  c7_sex_stored_raw c7WitS "Jane" (lineOf 1 none "SEX" (some "Banana")) "Banana"
    { c7WitS with gedcom := [(some "P1", ⟨"Jane", "Banana", false, true⟩)] }
    ⟨"Jane", "U", false, true⟩ rfl rfl rfl rfl rfl

/-! ## C1,C2 counterexamples -/

/-- C1 counterexample: on `exFam` with cutoff 2, the kept child `C1` has
exactly one kept parent (`P1`); the claim says the pruner synthesizes a NEW
placeholder (`isPlaceholder = true`, fresh synthetic id) for the missing
father. Instead the pruner re-adds the discarded father `G1` verbatim
(`isPlaceholder = false`, original name `Frank`), keeps `C1`'s parentage as
the original pair `(P1, G1)`, and adds no fresh identifier at all. -/
theorem c1_counterexample :
    load_gedcom exFam "Jane" = .ok (exFamG, exFamT, some "P1") ∧
    find_persons_less_than_x_meioses_from_poi exFamT exFamG 2 (some "P1") =
      some (exFamNewT, exFamNewG) ∧
    lookupA exFamNewG (some "G1") = some ⟨"Frank", "U", false, false⟩ ∧
    lookupA exFamNewT (some "C1") = some (some "P1", some "G1") ∧
    keysA exFamNewG = [some "P1", some "C1", some "G1"] :=
  ⟨rfl, rfl, rfl, rfl, rfl⟩

/-- C2 counterexample: on `exFam` with cutoff 2 the kept set (ids at
distance < 2 from the POI) is `[P1, C1]`, so `G1` is at distance ≥ 2; yet
`G1` appears in the pruned registry, re-added by the repair pass. -/
theorem c2_counterexample :
    load_gedcom exFam "Jane" = .ok (exFamG, exFamT, some "P1") ∧
    pruneKeep exFamT 2 (some "P1") = some [some "P1", some "C1"] ∧
    find_persons_less_than_x_meioses_from_poi exFamT exFamG 2 (some "P1") =
      some (exFamNewT, exFamNewG) ∧
    (some "G1") ∉ [some "P1", some "C1"] ∧
    (some "G1") ∈ keysA exFamNewG :=
  ⟨rfl, rfl, rfl, by decide, by decide⟩

/-! ## C4 counterexample -/

/-- C4 counterexample: in `exPoi2` exactly one individual's name contains
the POI substring `Jane` (there is only one individual, and its stored
name `Jane D` matches), but extraction fails anyway: the POI check counts
NAME-match events, and the one individual produced two of them. -/
theorem c4_counterexample :
    processLines initState "Jane" exPoi2 = .ok exPoi2S ∧
    (exPoi2S.gedcom.filter (fun kv => strContains kv.2.name "Jane")).length = 1 ∧
    exPoi2S.poiIds.length = 2 ∧
    (load_gedcom exPoi2 "Jane").toOption = none :=
  ⟨rfl, rfl, rfl, rfl⟩

/-! ## C5 counterexample -/

/-- C5 counterexample: `exPh` declares the file-derived id `Placeholder1`;
the first placeholder synthesized during extraction also receives the
identifier `Placeholder1`, colliding with the file-derived id (and
clobbering that individual's registry entry). -/
theorem c5_counterexample :
    "Placeholder1" ∈ fileIds exPh ∧
    load_gedcom exPh "Jane" = .ok (exPhG, exPhT, some "P1") ∧
    mkPlaceholder 1 = "Placeholder1" ∧
    lookupA exPhG (some "Placeholder1") = some ⟨"Placeholder1", "F", true, false⟩ ∧
    lookupA exPhT (some "P1") = some (some "Placeholder1", some "Placeholder2") :=
  ⟨by decide, rfl, rfl, rfl, rfl⟩

/-! ## C8 counterexample -/

/-- C8 counterexample: `exRef` is accepted by the extractor (its family
record references parents `X` and `Y` that have no INDI record), and the
pruner then fails on its output for `maxDistance = 2 ≥ 1`: `Y` is not among
the parentage-table keys, so the source's `gedcom_ids.index(mother)` raises
`ValueError` (modelled as `none`). -/
theorem c8_counterexample :
    load_gedcom exRef "Jane" = .ok (exRefG, exRefT, some "P1") ∧
    find_persons_less_than_x_meioses_from_poi exRefT exRefG 2 (some "P1") = none :=
  ⟨rfl, rfl⟩

/-! ## C9 -/

/-- The no-individual-yet invariant: no INDI line has run, so there is no
current person and no registry entry under the `None` key. -/
def NoCurrent (s : ExtState) : Prop :=
  s.currentPerson = none ∧ lookupA s.gedcom none = none

theorem noCurrent_preserved (poiName : String) (s : ExtState) (l : Line) (s' : ExtState)
    (hcond : ¬(l.data = none ∧ l.tag = "INDI")) (hP : NoCurrent s)
    (hstep : step s l poiName = .ok s') : NoCurrent s' := by
  rcases step_shape s l poiName s' hstep with
    ⟨hd, ht, he⟩ | ⟨_, _, he⟩ | ⟨d, rid, _, _, _, he⟩ | ⟨d, rid, _, _, _, he⟩ |
    ⟨d, rid, _, _, _, he⟩ | ⟨d, e, _, _, _, hcur, _, _⟩ | ⟨d, e, _, _, _, hlk, he⟩ |
    ⟨d, _, _, _, _, he⟩ | he
  · exact absurd ⟨hd, ht⟩ hcond
  · exact ⟨by rw [he]; exact hP.1, by rw [he]; exact hP.2⟩
  · exact ⟨by rw [he]; exact hP.1, by rw [he]; exact hP.2⟩
  · exact ⟨by rw [he]; exact hP.1, by rw [he]; exact hP.2⟩
  · refine ⟨?_, ?_⟩
    · rw [he, stepChil_currentPerson]
      exact hP.1
    · rw [he, stepChil_lookup_gedcom_none]
      exact hP.2
  · exact absurd hP.1 hcur
  · rw [hP.1, hP.2] at hlk
    cases hlk
  · exact ⟨by rw [he]; exact hP.1, by rw [he]; exact hP.2⟩
  · exact ⟨by rw [he]; exact hP.1, by rw [he]; exact hP.2⟩

theorem noCurrent_processLines (poiName : String) (ls : List Line) (s s' : ExtState)
    (hcond : ∀ l ∈ ls, ¬(l.data = none ∧ l.tag = "INDI")) (hP : NoCurrent s)
    (h : processLines s poiName ls = .ok s') : NoCurrent s' :=
  processLines_inv NoCurrent (fun l => ¬(l.data = none ∧ l.tag = "INDI")) poiName
    (noCurrent_preserved poiName) ls s s' hcond hP h

/-- C9: a SEX line with DATA (not an `@id@` reference) occurring before any
INDI line makes the whole extraction raise (the `KeyError` of
`gedcom_dict[None]`), returning no result at all; a NAME line in the same
position is silently skipped — extraction of the remaining lines is
unchanged — because the NAME handler is guarded on `current_person` being
set while the SEX handler is not. -/
theorem c9_sex_before_indi (pre post : List Line) (poiName : String)
    (lv₁ lv₂ : Nat) (id₁ id₂ : PId) (d₁ d₂ : String)
    (hpre : ∀ l ∈ pre, ¬(l.data = none ∧ l.tag = "INDI"))
    (href : refId d₁ = none) :
    (load_gedcom (pre ++ lineOf lv₁ id₁ "SEX" (some d₁) :: post) poiName).toOption = none ∧
    load_gedcom (pre ++ lineOf lv₂ id₂ "NAME" (some d₂) :: post) poiName =
      load_gedcom (pre ++ post) poiName := by
  cases hp : processLines initState poiName pre with
  | error e =>
    refine ⟨?_, ?_⟩
    · unfold load_gedcom
      rw [processLines_append, hp]
      rfl
    · unfold load_gedcom
      rw [processLines_append, hp, processLines_append, hp]
  | ok s₁ =>
    have hnc : NoCurrent s₁ :=
      noCurrent_processLines poiName pre initState s₁ hpre ⟨rfl, rfl⟩ hp
    have hsex : step s₁ (lineOf lv₁ id₁ "SEX" (some d₁)) poiName = .error "KeyError" := by
      simp only [step, lineOf, href, hnc.1, hnc.2]
      simp
    have hname : step s₁ (lineOf lv₂ id₂ "NAME" (some d₂)) poiName = .ok s₁ := by
      cases href2 : refId d₂ with
      | some rid =>
        simp only [step, lineOf, href2]
        simp
      | none =>
        simp only [step, lineOf, href2, hnc.1]
        simp
    refine ⟨?_, ?_⟩
    · unfold load_gedcom
      rw [processLines_append, hp]
      simp only [processLines, hsex]
      rfl
    · unfold load_gedcom
      rw [processLines_append, hp, processLines_append, hp]
      simp only [processLines, hname]

/-- Witness for `c9_sex_before_indi`: a HEAD line followed by a SEX line
(extraction fails) or a NAME line (extraction behaves as if the line were
absent). -/
theorem c9_witness :
    (load_gedcom [lineOf 0 none "HEAD" none, lineOf 1 none "SEX" (some "M")]
      "Jane").toOption = none ∧
    load_gedcom [lineOf 0 none "HEAD" none, lineOf 1 none "NAME" (some "Jane")] "Jane" =
      load_gedcom [lineOf 0 none "HEAD" none] "Jane" :=
  c9_sex_before_indi [lineOf 0 none "HEAD" none] [] "Jane" 1 1 none none "M" "Jane"
    (by decide) rfl

/-! ## C4 -/

/-- C4 (amended): assuming the line loop itself raises no error, extraction
fails if and only if the number of POI NAME-match events is not exactly
one — the check counts NAME lines whose data contains the substring
(processed while a current person is set), not distinct matching
individuals, so one individual with two matching NAME lines aborts the
run; on success the returned POI id is the individual of the single match
event, and `poi_ids` grows exactly at such NAME-match events. -/
theorem c4_poi_event_count (lines : List Line) (poiName : String) (s : ExtState)
    (h : processLines initState poiName lines = .ok s) :
    ((load_gedcom lines poiName).toOption = none ↔ s.poiIds.length ≠ 1) ∧
    (∀ g t p, load_gedcom lines poiName = .ok (g, t, p) → s.poiIds = [p]) ∧
    (∀ s₁ l s₂, step s₁ l poiName = .ok s₂ →
      s₂.poiIds = s₁.poiIds ∨
      (s₂.poiIds = s₁.poiIds ++ [s₁.currentPerson] ∧ l.tag = "NAME" ∧
        s₁.currentPerson ≠ none ∧
        ∃ d, l.data = some d ∧ refId d = none ∧ strContains d poiName = true)) := by
  refine ⟨?_, ?_, ?_⟩
  · unfold load_gedcom
    rw [h]
    rcases hp : s.poiIds with _ | ⟨p, _ | ⟨q, t⟩⟩ <;> simp [hp, Except.toOption]
  · intro g t p hload
    unfold load_gedcom at hload
    rw [h] at hload
    have hload2 : (match s.poiIds with
        | [p'] => (Except.ok (s.gedcom, s.trio, p') : Except String (GedD × TrioD × PId))
        | _ => Except.error "Expected to find one person with name matching") =
        Except.ok (g, t, p) := hload
    rcases hp : s.poiIds with _ | ⟨p', _ | ⟨q, t'⟩⟩ <;> rw [hp] at hload2
    · cases hload2
    · simp only at hload2
      cases hload2
      rfl
    · cases hload2
  · intro s₁ l s₂ hstep
    rcases step_shape s₁ l poiName s₂ hstep with
      ⟨_, _, he⟩ | ⟨_, _, he⟩ | ⟨d, rid, _, _, _, he⟩ | ⟨d, rid, _, _, _, he⟩ |
      ⟨d, rid, _, _, _, he⟩ | ⟨d, e, hd, hrf, ht, hcur, hlk, hcase⟩ |
      ⟨d, e, _, _, _, _, he⟩ | ⟨d, _, _, _, _, he⟩ | he
    · exact Or.inl (by rw [he])
    · exact Or.inl (by rw [he])
    · exact Or.inl (by rw [he])
    · exact Or.inl (by rw [he])
    · exact Or.inl (by rw [he, stepChil_poiIds])
    · rcases hcase with ⟨hc, he⟩ | ⟨hc, he⟩
      · exact Or.inr ⟨by rw [he], ht, hcur, d, hd, hrf, hc⟩
      · exact Or.inl (by rw [he])
    · exact Or.inl (by rw [he])
    · exact Or.inl (by rw [he])
    · exact Or.inl (by rw [he])

/-- Witness for `c4_poi_event_count` on `exFam`: one NAME-match event, so
extraction succeeds and returns `P1`. -/
theorem c4_witness :
    ¬((load_gedcom exFam "Jane").toOption = none) ∧
    ([some "P1"] : List PId).length = 1 :=
  ⟨fun hnone => ((c4_poi_event_count exFam "Jane"
      { mother := some "P1", father := some "G1", poiIds := [some "P1"],
        placeholdersUsed := 0, adopted := [], currentPerson := some "G1",
        gedcom := exFamG, trio := exFamT } rfl).1.mp hnone) (by decide),
   by decide⟩

/-! ## C3 -/

/-- The either-both-or-neither parentage invariant on a table. -/
def BothOrNeither (t : TrioD) : Prop := ∀ q ∈ t, (q.2.1 = none ↔ q.2.2 = none)

theorem bothOrNeither_step (poiName : String) (s : ExtState) (l : Line) (s' : ExtState)
    (hP : BothOrNeither s.trio) (hstep : step s l poiName = .ok s') :
    BothOrNeither s'.trio := by
  rcases step_shape s l poiName s' hstep with
    ⟨_, _, he⟩ | ⟨_, _, he⟩ | ⟨d, rid, _, _, _, he⟩ | ⟨d, rid, _, _, _, he⟩ |
    ⟨d, rid, _, _, _, he⟩ | ⟨d, e, _, _, _, _, _, hcase⟩ |
    ⟨d, e, _, _, _, _, he⟩ | ⟨d, _, _, _, _, he⟩ | he
  · rw [he]
    intro q hq
    rcases mem_insertA _ _ _ _ hq with hq' | hq'
    · simp [hq']
    · exact hP _ hq'
  · rw [he]; exact hP
  · rw [he]; exact hP
  · rw [he]; exact hP
  · rw [he]
    intro q hq
    rcases mem_trio_stepChil _ _ _ hq with h1 | h1 | ⟨a, b, h1⟩
    · exact hP _ h1
    · simp [h1]
    · simp [h1]
  · rcases hcase with ⟨_, he⟩ | ⟨_, he⟩ <;> rw [he] <;> exact hP
  · rw [he]; exact hP
  · rw [he]; exact hP
  · rw [he]; exact hP

theorem repairStep_bn (t : TrioD) (g : GedD) (keep : List PId) (acc : TrioD × GedD)
    (v : PId) (acc' : TrioD × GedD) (hBN : BothOrNeither t)
    (hacc : BothOrNeither acc.1) (h : repairStep t g keep acc v = some acc') :
    BothOrNeither acc'.1 := by
  simp only [repairStep] at h
  split at h
  next => cases h
  next ge hge =>
    split at h
    next => cases h
    next m f hmf =>
      split at h
      next hm =>
        split at h
        next hf =>
          split at h
          next => cases h
          next gf hgf =>
            cases h
            intro q hq
            rcases mem_insertA _ _ _ _ hq with hq' | hq'
            · rw [hq']
              exact hBN _ (lookupA_mem _ _ _ hmf)
            · rcases mem_insertA _ _ _ _ hq' with hq'' | hq''
              · simp [hq'']
              · exact hacc _ hq''
        next hf =>
          cases h
          intro q hq
          rcases mem_insertA _ _ _ _ hq with hq' | hq'
          · rw [hq']
            exact hBN _ (lookupA_mem _ _ _ hmf)
          · exact hacc _ hq'
      next hm =>
        split at h
        next hf =>
          split at h
          next => cases h
          next gm hgm =>
            cases h
            intro q hq
            rcases mem_insertA _ _ _ _ hq with hq' | hq'
            · rw [hq']
              exact hBN _ (lookupA_mem _ _ _ hmf)
            · rcases mem_insertA _ _ _ _ hq' with hq'' | hq''
              · simp [hq'']
              · exact hacc _ hq''
        next hf =>
          cases h
          intro q hq
          rcases mem_insertA _ _ _ _ hq with hq' | hq'
          · simp [hq']
          · exact hacc _ hq'

theorem repairLoop_bn (t : TrioD) (g : GedD) (keep : List PId) (hBN : BothOrNeither t) :
    ∀ (l : List PId) (acc r : TrioD × GedD), BothOrNeither acc.1 →
      repairLoop t g keep l acc = some r → BothOrNeither r.1 := by
  intro l
  induction l with
  | nil =>
    intro acc r hacc h
    simp only [repairLoop] at h
    cases h
    exact hacc
  | cons v rest ih =>
    intro acc r hacc h
    simp only [repairLoop] at h
    split at h
    next acc' hstep =>
      exact ih acc' r (repairStep_bn t g keep acc v acc' hBN hacc hstep) h
    next => cases h

/-- C3: for every individual in the parentage table — after extraction and
after pruning — the mother and father fields are either both absent or both
present. -/
theorem c3_both_or_neither (lines : List Line) (poiName : String) (g : GedD)
    (t : TrioD) (p : PId) (h : load_gedcom lines poiName = .ok (g, t, p)) :
    BothOrNeither t ∧
    ∀ x t' g', find_persons_less_than_x_meioses_from_poi t g x p = some (t', g') →
      BothOrNeither t' := by
  unfold load_gedcom at h
  cases hp : processLines initState poiName lines with
  | error e =>
    rw [hp] at h
    cases h
  | ok s =>
    rw [hp] at h
    have h2 : (match s.poiIds with
        | [p'] => (Except.ok (s.gedcom, s.trio, p') : Except String (GedD × TrioD × PId))
        | _ => Except.error "Expected to find one person with name matching") =
        Except.ok (g, t, p) := h
    have hBN : BothOrNeither t := by
      rcases hpp : s.poiIds with _ | ⟨p', _ | _⟩ <;> rw [hpp] at h2
      · cases h2
      · simp only at h2
        cases h2
        exact processLines_inv (fun st => BothOrNeither st.trio) (fun _ => True) poiName
          (fun st l st' _ => bothOrNeither_step poiName st l st') lines initState s
          (fun _ _ => trivial) (by intro q hq; cases hq) hp
      · cases h2
    refine ⟨hBN, ?_⟩
    intro x t' g' hpr
    unfold find_persons_less_than_x_meioses_from_poi at hpr
    split at hpr
    next => cases hpr
    next keep hkeep =>
      exact repairLoop_bn t g keep hBN keep ([], []) (t', g')
        (by intro q hq; cases hq) hpr

/-- Witness for `c3_both_or_neither` on `exFam` with cutoff 2. -/
theorem c3_witness : BothOrNeither exFamT ∧ BothOrNeither exFamNewT :=
  ⟨(c3_both_or_neither exFam "Jane" exFamG exFamT (some "P1") rfl).1,
   (c3_both_or_neither exFam "Jane" exFamG exFamT (some "P1") rfl).2 2
     exFamNewT exFamNewG rfl⟩

/-! ## C5 -/

/-- Every placeholder-flagged registry entry sits under a key that starts
with the string `Placeholder`. -/
def PlaceholderPrefixed (s : ExtState) : Prop :=
  ∀ q ∈ s.gedcom, q.2.isPlaceholder = true →
    ∃ str, q.1 = some str ∧ "Placeholder".data.isPrefixOf str.data = true

theorem placeholderPrefixed_step (poiName : String) (s : ExtState) (l : Line)
    (s' : ExtState) (hP : PlaceholderPrefixed s) (hstep : step s l poiName = .ok s') :
    PlaceholderPrefixed s' := by
  rcases step_shape s l poiName s' hstep with
    ⟨_, _, he⟩ | ⟨_, _, he⟩ | ⟨d, rid, _, _, _, he⟩ | ⟨d, rid, _, _, _, he⟩ |
    ⟨d, rid, _, _, _, he⟩ | ⟨d, e, _, _, _, _, hlk, hcase⟩ |
    ⟨d, e, _, _, _, hlk, he⟩ | ⟨d, _, _, _, _, he⟩ | he
  · rw [he]
    intro q hq hflag
    rcases mem_insertA _ _ _ _ hq with hq' | hq'
    · rw [hq'] at hflag
      cases hflag
    · exact hP _ hq' hflag
  · rw [he]; exact hP
  · rw [he]; exact hP
  · rw [he]; exact hP
  · rw [he]
    intro q hq hflag
    rcases mem_gedcom_stepChil _ _ _ hq with hq' | ⟨p, sx, hq', hpre⟩
    · exact hP _ hq' hflag
    · exact ⟨p, by rw [hq'], hpre⟩
  · rcases hcase with ⟨_, he⟩ | ⟨_, he⟩ <;> rw [he] <;>
      (intro q hq hflag
       rcases mem_insertA _ _ _ _ hq with hq' | hq'
       · rw [hq'] at hflag ⊢
         exact hP (s.currentPerson, e) (lookupA_mem _ _ _ hlk) hflag
       · exact hP _ hq' hflag)
  · rw [he]
    intro q hq hflag
    rcases mem_insertA _ _ _ _ hq with hq' | hq'
    · rw [hq'] at hflag ⊢
      exact hP (s.currentPerson, e) (lookupA_mem _ _ _ hlk) hflag
    · exact hP _ hq' hflag
  · rw [he]; exact hP
  · rw [he]; exact hP

/-- C5 (amended): provided no file-derived identifier starts with the
string `Placeholder`, no synthesized placeholder identifier (and in
particular no placeholder-flagged registry key) equals any file-derived
identifier of the input. The restriction is necessary: `c5_counterexample`
shows a file declaring the id `Placeholder1` collides with the first
synthesized placeholder. -/
theorem c5_placeholder_disjoint (lines : List Line) (poiName : String) (s : ExtState)
    (hids : ∀ fid ∈ fileIds lines, "Placeholder".data.isPrefixOf fid.data = false)
    (h : processLines initState poiName lines = .ok s) :
    (∀ q ∈ s.gedcom, q.2.isPlaceholder = true →
      ∀ str, q.1 = some str → str ∉ fileIds lines) ∧
    (∀ n : Nat, mkPlaceholder n ∉ fileIds lines) := by
  have hinv : PlaceholderPrefixed s :=
    processLines_inv PlaceholderPrefixed (fun _ => True) poiName
      (fun st l st' _ => placeholderPrefixed_step poiName st l st') lines initState s
      (fun _ _ => trivial) (by intro q hq; cases hq) h
  refine ⟨?_, ?_⟩
  · intro q hq hflag str hstr hmem
    obtain ⟨str', hq1, hpre⟩ := hinv q hq hflag
    rw [hstr] at hq1
    cases hq1
    rw [hids str hmem] at hpre
    cases hpre
  · intro n hmem
    have hfalse := hids _ hmem
    rw [placeholder_pfx_mk n] at hfalse
    cases hfalse

/-- The parse state after the line loop of `exTwoChil`. -/
def exTwoChilS : ExtState :=
  { mother := some "Placeholder1", father := some "Placeholder2",
    poiIds := [some "P1"], placeholdersUsed := 2, adopted := [],
    currentPerson := some "C2",
    gedcom := [
      (some "P1", ⟨"Jane", "U", false, true⟩),
      (some "C2", ⟨"", "U", false, false⟩),
      (some "Placeholder1", ⟨"Placeholder1", "F", true, false⟩),
      (some "Placeholder2", ⟨"Placeholder2", "M", true, false⟩)],
    trio := [
      (some "P1", (some "Placeholder1", some "Placeholder2")),
      (some "C2", (some "Placeholder1", some "Placeholder2")),
      (some "Placeholder1", (none, none)),
      (some "Placeholder2", (none, none))] }

/-- Witness for `c5_placeholder_disjoint` on `exTwoChil`, whose file ids
are `P1`, `C2`, `F1`. -/
theorem c5_witness : mkPlaceholder 1 ∉ fileIds exTwoChil :=
  (c5_placeholder_disjoint exTwoChil "Jane" exTwoChilS (by decide) rfl).2 1

/-! ## C6 -/

theorem fillMother_lookup_trio (s : ExtState) (k : PId)
    (h : lookupA s.trio k = some (none, none)) :
    lookupA (fillMother s).trio k = some (none, none) := by
  unfold fillMother
  split
  · exact h
  · by_cases hk : k = some (mkPlaceholder (s.placeholdersUsed + 1))
    · rw [hk]
      exact lookupA_insertA_self _ _ _
    · rw [lookupA_insertA_ne _ _ _ _ hk]
      exact h

theorem fillFather_lookup_trio (s : ExtState) (k : PId)
    (h : lookupA s.trio k = some (none, none)) :
    lookupA (fillFather s).trio k = some (none, none) := by
  unfold fillFather
  split
  · exact h
  · by_cases hk : k = some (mkPlaceholder (s.placeholdersUsed + 1))
    · rw [hk]
      exact lookupA_insertA_self _ _ _
    · rw [lookupA_insertA_ne _ _ _ _ hk]
      exact h

theorem stepChil_lookup_trio (s : ExtState) (c : String) (k : PId) (hk : k ≠ some c)
    (h : lookupA s.trio k = some (none, none)) :
    lookupA (stepChil s c).trio k = some (none, none) := by
  unfold stepChil
  split
  · exact h
  · simp only
    rw [lookupA_insertA_ne _ _ _ _ hk]
    exact fillFather_lookup_trio _ _ (fillMother_lookup_trio _ _ h)

/-- The inside-the-record phase of C6: the current person is the child and
its trio entry is `(None, None)`. -/
def MidInv (cid : String) (s : ExtState) : Prop :=
  s.currentPerson = some cid ∧ lookupA s.trio (some cid) = some (none, none)

/-- The after-the-PEDI phase of C6: the child is marked adopted and its
trio entry is `(None, None)`. -/
def AdoptInv (cid : String) (s : ExtState) : Prop :=
  some cid ∈ s.adopted ∧ lookupA s.trio (some cid) = some (none, none)

theorem midInv_step (cid : String) (poiName : String) (s : ExtState) (l : Line)
    (s' : ExtState)
    (hcond : ¬(l.data = none ∧ (l.tag = "INDI" ∨ l.tag = "FAM")) ∧
      ¬(l.tag = "CHIL" ∧ l.data.bind refId = some cid))
    (hP : MidInv cid s) (hstep : step s l poiName = .ok s') : MidInv cid s' := by
  rcases step_shape s l poiName s' hstep with
    ⟨hd, ht, he⟩ | ⟨hd, ht, he⟩ | ⟨d, rid, _, _, _, he⟩ | ⟨d, rid, _, _, _, he⟩ |
    ⟨d, rid, hd, hrf, ht, he⟩ | ⟨d, e, _, _, _, _, _, hcase⟩ |
    ⟨d, e, _, _, _, _, he⟩ | ⟨d, _, _, _, _, he⟩ | he
  · exact absurd ⟨hd, Or.inl ht⟩ hcond.1
  · exact absurd ⟨hd, Or.inr ht⟩ hcond.1
  · exact ⟨by rw [he]; exact hP.1, by rw [he]; exact hP.2⟩
  · exact ⟨by rw [he]; exact hP.1, by rw [he]; exact hP.2⟩
  · have hne : rid ≠ cid := by
      intro hrc
      exact hcond.2 ⟨ht, by rw [hd]; simp [hrf, hrc]⟩
    refine ⟨?_, ?_⟩
    · rw [he, stepChil_currentPerson]
      exact hP.1
    · rw [he]
      exact stepChil_lookup_trio s rid (some cid) (by simp [hne.symm]) hP.2
  · rcases hcase with ⟨_, he⟩ | ⟨_, he⟩ <;>
      exact ⟨by rw [he]; exact hP.1, by rw [he]; exact hP.2⟩
  · exact ⟨by rw [he]; exact hP.1, by rw [he]; exact hP.2⟩
  · exact ⟨by rw [he]; exact hP.1, by rw [he]; exact hP.2⟩
  · exact ⟨by rw [he]; exact hP.1, by rw [he]; exact hP.2⟩

theorem adoptInv_step (cid : String) (poiName : String) (s : ExtState) (l : Line)
    (s' : ExtState) (hP : AdoptInv cid s) (hstep : step s l poiName = .ok s') :
    AdoptInv cid s' := by
  rcases step_shape s l poiName s' hstep with
    ⟨hd, ht, he⟩ | ⟨hd, ht, he⟩ | ⟨d, rid, _, _, _, he⟩ | ⟨d, rid, _, _, _, he⟩ |
    ⟨d, rid, hd, hrf, ht, he⟩ | ⟨d, e, _, _, _, _, _, hcase⟩ |
    ⟨d, e, _, _, _, _, he⟩ | ⟨d, _, _, _, _, he⟩ | he
  · refine ⟨by rw [he]; exact hP.1, ?_⟩
    rw [he]
    by_cases hk : (some cid : PId) = l.id
    · rw [← hk]
      exact lookupA_insertA_self _ _ _
    · rw [lookupA_insertA_ne _ _ _ _ hk]
      exact hP.2
  · exact ⟨by rw [he]; exact hP.1, by rw [he]; exact hP.2⟩
  · exact ⟨by rw [he]; exact hP.1, by rw [he]; exact hP.2⟩
  · exact ⟨by rw [he]; exact hP.1, by rw [he]; exact hP.2⟩
  · refine ⟨by rw [he, stepChil_adopted]; exact hP.1, ?_⟩
    rw [he]
    by_cases hrc : rid = cid
    · rw [show stepChil s rid = s by
        unfold stepChil
        rw [if_pos (by rw [hrc]; exact hP.1)]]
      exact hP.2
    · exact stepChil_lookup_trio s rid (some cid) (by simp [hrc, Ne.symm hrc]) hP.2
  · rcases hcase with ⟨_, he⟩ | ⟨_, he⟩ <;>
      exact ⟨by rw [he]; exact hP.1, by rw [he]; exact hP.2⟩
  · exact ⟨by rw [he]; exact hP.1, by rw [he]; exact hP.2⟩
  · refine ⟨?_, by rw [he]; exact hP.2⟩
    rw [he]
    exact List.mem_append_left _ hP.1
  · exact ⟨by rw [he]; exact hP.1, by rw [he]; exact hP.2⟩

/-- C6: a child whose own individual record carries the `PEDI`/adopted
marker (an INDI line for the child followed, with no intervening record
opener and no CHIL line for this child — a CHIL line inside the individual
record would not be "in a family record" — by a `PEDI adopted` line) never
receives a family's mother/father as its recorded parentage: after the
whole input is processed its trio entry is `(absent, absent)`. CHIL lines
for the child before its INDI line are erased by the INDI reset, and CHIL
lines after the PEDI line are skipped because the child is in the adopted
list. -/
theorem c6_adoption_exclusion (pre mid post : List Line) (cid : String)
    (poiName : String) (lv₁ lv₂ : Nat) (pid : PId) (s : ExtState)
    (hmid : ∀ l ∈ mid, ¬(l.data = none ∧ (l.tag = "INDI" ∨ l.tag = "FAM")) ∧
      ¬(l.tag = "CHIL" ∧ l.data.bind refId = some cid))
    (h : processLines initState poiName
      (pre ++ lineOf lv₁ (some cid) "INDI" none ::
        (mid ++ lineOf lv₂ pid "PEDI" (some "adopted") :: post)) = .ok s) :
    lookupA s.trio (some cid) = some (none, none) := by
  rw [processLines_append] at h
  cases hp : processLines initState poiName pre with
  | error e =>
    rw [hp] at h
    cases h
  | ok s0 =>
    rw [hp] at h
    simp only [processLines] at h
    have hstep1 : step s0 (lineOf lv₁ (some cid) "INDI" none) poiName =
        .ok { s0 with gedcom := insertA s0.gedcom (some cid) ⟨"", "U", false, false⟩,
                      trio := insertA s0.trio (some cid) (none, none),
                      currentPerson := some cid } := by
      simp [step, lineOf]
    rw [hstep1] at h
    have h2 : processLines { s0 with
        gedcom := insertA s0.gedcom (some cid) ⟨"", "U", false, false⟩,
        trio := insertA s0.trio (some cid) (none, none),
        currentPerson := some cid } poiName
        (mid ++ lineOf lv₂ pid "PEDI" (some "adopted") :: post) = .ok s := h
    rw [processLines_append] at h2
    cases hm : processLines { s0 with
        gedcom := insertA s0.gedcom (some cid) ⟨"", "U", false, false⟩,
        trio := insertA s0.trio (some cid) (none, none),
        currentPerson := some cid } poiName mid with
    | error e =>
      rw [hm] at h2
      cases h2
    | ok s2 =>
      rw [hm] at h2
      have hmidinv : MidInv cid s2 :=
        processLines_inv (MidInv cid)
          (fun l => ¬(l.data = none ∧ (l.tag = "INDI" ∨ l.tag = "FAM")) ∧
            ¬(l.tag = "CHIL" ∧ l.data.bind refId = some cid)) poiName
          (midInv_step cid poiName) mid _ s2 hmid
          ⟨rfl, lookupA_insertA_self _ _ _⟩ hm
      simp only [processLines] at h2
      have hstep2 : step s2 (lineOf lv₂ pid "PEDI" (some "adopted")) poiName =
          .ok { s2 with adopted := s2.adopted ++ [s2.currentPerson] } := by
        simp [step, lineOf, refId, refIdAux, isWordChar]
      rw [hstep2] at h2
      have h3 : processLines { s2 with adopted := s2.adopted ++ [s2.currentPerson] }
          poiName post = .ok s := h2
      have hadopt : AdoptInv cid { s2 with adopted := s2.adopted ++ [s2.currentPerson] } := by
        refine ⟨?_, hmidinv.2⟩
        rw [← hmidinv.1]
        exact List.mem_append_right _ (List.mem_singleton.mpr rfl)
      exact (processLines_inv (AdoptInv cid) (fun _ => True) poiName
        (fun st l st' _ => adoptInv_step cid poiName st l st') post _ s
        (fun _ _ => trivial) hadopt h3).2

/-- The parse state after the line loop of `exAdopt`. -/
def exAdoptS : ExtState :=
  { mother := some "M1", father := some "H1", poiIds := [some "C1"],
    placeholdersUsed := 0, adopted := [some "C1"], currentPerson := some "C1",
    gedcom := [(some "C1", ⟨"Jane", "U", false, true⟩)],
    trio := [(some "C1", (none, none))] }

/-- Witness for `c6_adoption_exclusion` on `exAdopt`: `C1` is marked
adopted inside its own record and listed as CHIL of the following family,
and its final parentage entry is `(absent, absent)`. -/
theorem c6_witness : lookupA exAdoptS.trio (some "C1") = some (none, none) :=
  c6_adoption_exclusion [] [lineOf 1 none "NAME" (some "Jane")]
    [lineOf 0 (some "F1") "FAM" none, lineOf 1 none "WIFE" (some "@M1@"),
     lineOf 1 none "HUSB" (some "@H1@"), lineOf 1 none "CHIL" (some "@C1@")]
    "C1" "Jane" 0 1 none exAdoptS (by decide) rfl

/-! ## C10 -/

/-- A CHIL step for a non-adopted child in a family with neither parent
recorded: exactly one placeholder per missing role is synthesized, mother
first, and both are written into the family state. -/
theorem stepChil_both_missing (s : ExtState) (c : String)
    (hm : s.mother = none) (hf : s.father = none) (hc : some c ∉ s.adopted) :
    (stepChil s c).mother = some (mkPlaceholder (s.placeholdersUsed + 1)) ∧
    (stepChil s c).father = some (mkPlaceholder (s.placeholdersUsed + 2)) ∧
    (stepChil s c).placeholdersUsed = s.placeholdersUsed + 2 ∧
    lookupA (stepChil s c).trio (some c) =
      some (some (mkPlaceholder (s.placeholdersUsed + 1)),
            some (mkPlaceholder (s.placeholdersUsed + 2))) := by
  have hfm : fillMother s = { s with
      mother := some (mkPlaceholder (s.placeholdersUsed + 1)),
      placeholdersUsed := s.placeholdersUsed + 1,
      gedcom := insertA s.gedcom (some (mkPlaceholder (s.placeholdersUsed + 1)))
        ⟨mkPlaceholder (s.placeholdersUsed + 1), "F", true, false⟩,
      trio := insertA s.trio (some (mkPlaceholder (s.placeholdersUsed + 1)))
        (none, none) } := by
    unfold fillMother
    rw [hm]
  have hff : fillFather (fillMother s) = { fillMother s with
      father := some (mkPlaceholder (s.placeholdersUsed + 2)),
      placeholdersUsed := s.placeholdersUsed + 2,
      gedcom := insertA (fillMother s).gedcom
        (some (mkPlaceholder (s.placeholdersUsed + 2)))
        ⟨mkPlaceholder (s.placeholdersUsed + 2), "M", true, false⟩,
      trio := insertA (fillMother s).trio
        (some (mkPlaceholder (s.placeholdersUsed + 2))) (none, none) } := by
    unfold fillFather
    rw [show (fillMother s).father = none by rw [fillMother_father, hf], hfm]
  unfold stepChil
  rw [if_neg hc, hff, hfm]
  refine ⟨rfl, rfl, rfl, ?_⟩
  exact lookupA_insertA_self _ _ _

/-- A CHIL step for a non-adopted child in a family with both parents
recorded: no placeholder is synthesized; the recorded pair is reused. -/
theorem stepChil_both_present (s : ExtState) (c a b : String)
    (hm : s.mother = some a) (hf : s.father = some b) (hc : some c ∉ s.adopted) :
    stepChil s c = { s with trio := insertA s.trio (some c) (some a, some b) } := by
  unfold stepChil
  rw [if_neg hc, fillMother_of_some s a hm, fillFather_of_some s b hf]
  simp only [hm, hf]

/-- A CHIL line reduces to `stepChil`. -/
theorem step_chil_eq (s : ExtState) (l : Line) (poiName : String) (rid d : String)
    (ht : l.tag = "CHIL") (hd : l.data = some d) (hrf : refId d = some rid) :
    step s l poiName = .ok (stepChil s rid) := by
  obtain ⟨lv, lid, ltag, ldata⟩ := l
  simp only at ht hd
  subst ht
  subst hd
  simp [step, hrf]

/-- The family-parent state `(mother, father, counter)` pinned to fixed
values. -/
def ParentsFixed (ma fa : PId) (n : Nat) (s : ExtState) : Prop :=
  s.mother = ma ∧ s.father = fa ∧ s.placeholdersUsed = n

theorem parentsFixed_step (poiName : String) (a b : String) (n : Nat) (s : ExtState)
    (l : Line) (s' : ExtState)
    (hcond : l.tag ≠ "FAM" ∧ l.tag ≠ "WIFE" ∧ l.tag ≠ "HUSB")
    (hP : ParentsFixed (some a) (some b) n s) (hstep : step s l poiName = .ok s') :
    ParentsFixed (some a) (some b) n s' := by
  rcases step_shape s l poiName s' hstep with
    ⟨_, _, he⟩ | ⟨_, ht, he⟩ | ⟨d, rid, _, _, ht, he⟩ | ⟨d, rid, _, _, ht, he⟩ |
    ⟨d, rid, _, _, _, he⟩ | ⟨d, e, _, _, _, _, _, hcase⟩ |
    ⟨d, e, _, _, _, _, he⟩ | ⟨d, _, _, _, _, he⟩ | he
  · exact ⟨by rw [he]; exact hP.1, by rw [he]; exact hP.2.1, by rw [he]; exact hP.2.2⟩
  · exact absurd ht hcond.1
  · exact absurd ht hcond.2.2
  · exact absurd ht hcond.2.1
  · rcases stepChil_parents_preserved s rid a b hP.1 hP.2.1 with heq | heq
    · rw [he, heq]
      exact hP
    · exact ⟨by rw [he, heq]; exact hP.1, by rw [he, heq]; exact hP.2.1,
        by rw [he, heq]; exact hP.2.2⟩
  · rcases hcase with ⟨_, he⟩ | ⟨_, he⟩ <;>
      exact ⟨by rw [he]; exact hP.1, by rw [he]; exact hP.2.1, by rw [he]; exact hP.2.2⟩
  · exact ⟨by rw [he]; exact hP.1, by rw [he]; exact hP.2.1, by rw [he]; exact hP.2.2⟩
  · exact ⟨by rw [he]; exact hP.1, by rw [he]; exact hP.2.1, by rw [he]; exact hP.2.2⟩
  · exact ⟨by rw [he]; exact hP.1, by rw [he]; exact hP.2.1, by rw [he]; exact hP.2.2⟩

/-- C10: when a CHIL line finds both family parents missing, the
synthesized placeholder ids are written into the family's
`currentMother`/`currentFather` state (and the counter advances by exactly
one per missing role); as long as the family is not reopened and no
WIFE/HUSB line intervenes, every later CHIL line of the family reuses the
same placeholder pair and synthesizes nothing new. -/
theorem c10_placeholder_reused (s : ExtState) (poiName : String) (c1 d₁ : String)
    (l₁ : Line) (s1 : ExtState)
    (hm : s.mother = none) (hf : s.father = none) (hc1 : some c1 ∉ s.adopted)
    (ht1 : l₁.tag = "CHIL") (hd1 : l₁.data = some d₁) (hrf1 : refId d₁ = some c1)
    (hstep1 : step s l₁ poiName = .ok s1) :
    s1.mother = some (mkPlaceholder (s.placeholdersUsed + 1)) ∧
    s1.father = some (mkPlaceholder (s.placeholdersUsed + 2)) ∧
    s1.placeholdersUsed = s.placeholdersUsed + 2 ∧
    lookupA s1.trio (some c1) =
      some (some (mkPlaceholder (s.placeholdersUsed + 1)),
            some (mkPlaceholder (s.placeholdersUsed + 2))) ∧
    ∀ (ls : List Line) (s2 : ExtState),
      (∀ l ∈ ls, l.tag ≠ "FAM" ∧ l.tag ≠ "WIFE" ∧ l.tag ≠ "HUSB") →
      processLines s1 poiName ls = .ok s2 →
      s2.mother = s1.mother ∧ s2.father = s1.father ∧
      s2.placeholdersUsed = s1.placeholdersUsed ∧
      ∀ (l₂ : Line) (s3 : ExtState) (c2 d₂ : String),
        l₂.tag = "CHIL" → l₂.data = some d₂ → refId d₂ = some c2 →
        some c2 ∉ s2.adopted → step s2 l₂ poiName = .ok s3 →
        lookupA s3.trio (some c2) =
          some (some (mkPlaceholder (s.placeholdersUsed + 1)),
                some (mkPlaceholder (s.placeholdersUsed + 2))) ∧
        s3.placeholdersUsed = s2.placeholdersUsed := by
  have hs1 : s1 = stepChil s c1 := by
    rw [step_chil_eq s l₁ poiName c1 d₁ ht1 hd1 hrf1] at hstep1
    cases hstep1
    rfl
  obtain ⟨hsm, hsf, hsn, hslk⟩ := stepChil_both_missing s c1 hm hf hc1
  rw [← hs1] at hsm hsf hsn hslk
  refine ⟨hsm, hsf, hsn, hslk, ?_⟩
  intro ls s2 hcond h2
  have hfix : ParentsFixed (some (mkPlaceholder (s.placeholdersUsed + 1)))
      (some (mkPlaceholder (s.placeholdersUsed + 2))) s1.placeholdersUsed s2 :=
    processLines_inv _ (fun l => l.tag ≠ "FAM" ∧ l.tag ≠ "WIFE" ∧ l.tag ≠ "HUSB")
      poiName (parentsFixed_step poiName _ _ _) ls s1 s2 hcond ⟨hsm, hsf, rfl⟩ h2
  refine ⟨by rw [hfix.1, hsm], by rw [hfix.2.1, hsf], hfix.2.2, ?_⟩
  intro l₂ s3 c2 d₂ ht2 hd2 hrf2 hc2 hstep2
  have hs3 : s3 = stepChil s2 c2 := by
    rw [step_chil_eq s2 l₂ poiName c2 d₂ ht2 hd2 hrf2] at hstep2
    cases hstep2
    rfl
  rw [hs3, stepChil_both_present s2 c2 _ _ hfix.1 hfix.2.1 hc2]
  exact ⟨lookupA_insertA_self _ _ _, rfl⟩

/-- The parse state after the first CHIL line of `exTwoChil`. -/
def c10S1 : ExtState :=
  { mother := some "Placeholder1", father := some "Placeholder2",
    poiIds := [some "P1"], placeholdersUsed := 2, adopted := [],
    currentPerson := some "C2",
    gedcom := [
      (some "P1", ⟨"Jane", "U", false, true⟩),
      (some "C2", ⟨"", "U", false, false⟩),
      (some "Placeholder1", ⟨"Placeholder1", "F", true, false⟩),
      (some "Placeholder2", ⟨"Placeholder2", "M", true, false⟩)],
    trio := [
      (some "P1", (some "Placeholder1", some "Placeholder2")),
      (some "C2", (none, none)),
      (some "Placeholder1", (none, none)),
      (some "Placeholder2", (none, none))] }

/-- Witness for `c10_placeholder_reused` on the two CHIL lines of
`exTwoChil`: the second child receives the same pair
`(Placeholder1, Placeholder2)` and the counter does not advance. -/
theorem c10_witness :
    c10S1.mother = some (mkPlaceholder 1) ∧
    lookupA exTwoChilS.trio (some "C2") =
      some (some (mkPlaceholder 1), some (mkPlaceholder 2)) ∧
    exTwoChilS.placeholdersUsed = c10S1.placeholdersUsed := by
  have H := c10_placeholder_reused
    { mother := none, father := none, poiIds := [some "P1"], placeholdersUsed := 0,
      adopted := [], currentPerson := some "C2",
      gedcom := [(some "P1", ⟨"Jane", "U", false, true⟩),
                 (some "C2", ⟨"", "U", false, false⟩)],
      trio := [(some "P1", (none, none)), (some "C2", (none, none))] }
    "Jane" "P1" "@P1@" (lineOf 1 none "CHIL" (some "@P1@")) c10S1
    rfl rfl (by decide) rfl rfl rfl rfl
  have H2 := H.2.2.2.2 [] c10S1 (by intro l hl; cases hl) rfl
  have H3 := H2.2.2.2 (lineOf 1 none "CHIL" (some "@C2@")) exTwoChilS "C2" "@C2@"
    rfl rfl rfl (by decide) rfl
  exact ⟨H.1, H3.1, H3.2⟩

/-! ## C8 -/

/-- Every parent referenced by a table entry is itself a table key. -/
def ParentClosed (t : TrioD) : Prop :=
  ∀ q ∈ t, q.2.1 ≠ none → q.2.1 ∈ keysA t ∧ q.2.2 ∈ keysA t

theorem buildEdges_total (ids : List PId) :
    ∀ (rest : List (PId × Trio)) (i : Nat),
      (∀ q ∈ rest, q.2.1 ≠ none → q.2.1 ∈ ids ∧ q.2.2 ∈ ids) →
      (buildEdges ids rest i).isSome := by
  intro rest
  induction rest with
  | nil =>
    intro i _
    simp [buildEdges]
  | cons q rest ih =>
    intro i hq
    obtain ⟨c, m, f⟩ := q
    cases m with
    | none =>
      simp only [buildEdges]
      exact ih (i + 1) (fun q' hq' => hq q' (List.mem_cons_of_mem _ hq'))
    | some a =>
      have hmem := hq (c, some a, f) (List.mem_cons_self _ _) (by simp)
      obtain ⟨mi, hmi⟩ := Option.isSome_iff_exists.mp
        (idxOf?_isSome_of_mem ids (some a) hmem.1)
      obtain ⟨fi, hfi⟩ := Option.isSome_iff_exists.mp
        (idxOf?_isSome_of_mem ids f hmem.2)
      obtain ⟨es, hes⟩ := Option.isSome_iff_exists.mp
        (ih (i + 1) (fun q' hq' => hq q' (List.mem_cons_of_mem _ hq')))
      simp [buildEdges, hmi, hfi, hes]

theorem pruneKeep_total (t : TrioD) (x : Nat) (poi : PId)
    (hPC : ParentClosed t) (hpoi : poi ∈ keysA t) :
    (pruneKeep t x poi).isSome := by
  unfold pruneKeep
  obtain ⟨pi, hpi⟩ := Option.isSome_iff_exists.mp
    (idxOf?_isSome_of_mem (keysA t) poi hpoi)
  rw [hpi]
  obtain ⟨es, hes⟩ := Option.isSome_iff_exists.mp (buildEdges_total (keysA t) t 0 hPC)
  rw [hes]
  simp

theorem pruneKeep_sub (t : TrioD) (x : Nat) (poi : PId) (keep : List PId)
    (h : pruneKeep t x poi = some keep) : ∀ v ∈ keep, v ∈ keysA t := by
  unfold pruneKeep at h
  split at h
  next => cases h
  next pi hpi =>
    split at h
    next => cases h
    next es hes =>
      cases h
      intro v hv
      simp only [List.mem_map] at hv
      obtain ⟨⟨i, w⟩, hmem, hw⟩ := hv
      have hw' : w ∈ (keysA t).enum.map Prod.snd :=
        List.mem_map_of_mem Prod.snd (List.mem_of_mem_filter hmem)
      rw [List.enum_map_snd] at hw'
      rw [← hw]
      exact hw'

theorem repairStep_total (t : TrioD) (g : GedD) (keep : List PId) (acc : TrioD × GedD)
    (v : PId) (hv : v ∈ keep) (hkt : ∀ u ∈ keep, u ∈ keysA t)
    (hBN : BothOrNeither t) (hPC : ParentClosed t)
    (hKG : ∀ k ∈ keysA t, k ∈ keysA g) :
    (repairStep t g keep acc v).isSome := by
  obtain ⟨ge, hge⟩ := Option.isSome_iff_exists.mp
    (lookupA_isSome_of_mem g v (hKG v (hkt v hv)))
  obtain ⟨⟨m, f⟩, htv⟩ := Option.isSome_iff_exists.mp
    (lookupA_isSome_of_mem t v (hkt v hv))
  have hmemt : (v, (m, f)) ∈ t := lookupA_mem t v (m, f) htv
  simp only [repairStep, hge, htv]
  split
  next hm =>
    split
    next hf =>
      have hmne : m ≠ none := by
        intro hmn
        rw [hmn] at hm
        have hfn : f = none := ((hBN _ hmemt).mp hmn)
        rw [hfn] at hf
        exact hf hm
      obtain ⟨gf, hgf⟩ := Option.isSome_iff_exists.mp
        (lookupA_isSome_of_mem g f (hKG f (hPC _ hmemt hmne).2))
      simp [hgf]
    next hf => simp
  next hm =>
    split
    next hf =>
      have hmne : m ≠ none := by
        intro hmn
        rw [hmn] at hm
        have hfn : f = none := ((hBN _ hmemt).mp hmn)
        rw [hfn] at hf
        exact hm hf
      obtain ⟨gm, hgm⟩ := Option.isSome_iff_exists.mp
        (lookupA_isSome_of_mem g m (hKG m (hPC _ hmemt hmne).1))
      simp [hgm]
    next hf => simp

theorem repairLoop_total (t : TrioD) (g : GedD) (keep : List PId)
    (hkt : ∀ u ∈ keep, u ∈ keysA t) (hBN : BothOrNeither t) (hPC : ParentClosed t)
    (hKG : ∀ k ∈ keysA t, k ∈ keysA g) :
    ∀ (l : List PId), (∀ v ∈ l, v ∈ keep) →
      ∀ acc, (repairLoop t g keep l acc).isSome := by
  intro l
  induction l with
  | nil =>
    intro _ acc
    simp [repairLoop]
  | cons v rest ih =>
    intro hl acc
    simp only [repairLoop]
    obtain ⟨acc', hacc'⟩ := Option.isSome_iff_exists.mp
      (repairStep_total t g keep acc v (hl v (List.mem_cons_self _ _)) hkt hBN hPC hKG)
    rw [hacc']
    exact ih (fun u hu => hl u (List.mem_cons_of_mem _ hu)) acc'

/-- C8 (amended): the pruner runs to completion on a parentage table that
is parent-closed (every referenced parent id is itself a table key — which
fails when a HUSB/WIFE reference has no INDI record, see
`c8_counterexample`), satisfies the both-or-neither invariant, has a
registry entry for every table key, and contains the POI; the cutoff
`x ≥ 1` plays no role in totality. -/
theorem c8_pruner_total (t : TrioD) (g : GedD) (x : Nat) (poi : PId)
    (hBN : BothOrNeither t) (hPC : ParentClosed t)
    (hKG : ∀ k ∈ keysA t, k ∈ keysA g) (hpoi : poi ∈ keysA t) (_hx : 1 ≤ x) :
    (find_persons_less_than_x_meioses_from_poi t g x poi).isSome := by
  unfold find_persons_less_than_x_meioses_from_poi
  obtain ⟨keep, hkeep⟩ := Option.isSome_iff_exists.mp (pruneKeep_total t x poi hPC hpoi)
  rw [hkeep]
  exact repairLoop_total t g keep (pruneKeep_sub t x poi keep hkeep) hBN hPC hKG keep
    (fun v hv => hv) ([], [])

/-- Witness for `c8_pruner_total` on the extractor output of `exFam`. -/
theorem c8_witness :
    (find_persons_less_than_x_meioses_from_poi exFamT exFamG 2 (some "P1")).isSome :=
  c8_pruner_total exFamT exFamG 2 (some "P1") (by unfold BothOrNeither; decide)
    (by unfold ParentClosed; decide) (by decide) (by decide) (by decide)

/-! ## C1 -/

theorem repairLoop_append (t : TrioD) (g : GedD) (keep : List PId) (a b : List PId)
    (acc : TrioD × GedD) :
    repairLoop t g keep (a ++ b) acc =
      match repairLoop t g keep a acc with
      | some acc' => repairLoop t g keep b acc'
      | none => none := by
  induction a generalizing acc with
  | nil => simp [repairLoop]
  | cons v rest ih =>
    simp only [List.cons_append, repairLoop]
    cases repairStep t g keep acc v with
    | some acc' => exact ih acc'
    | none => rfl

/-- Establishment: processing the kept child `v` whose parent `ms` was
discarded while the other was kept writes `v ↦ (m, f)` into the output
table, `ms ↦ (None, None)` into the output table, and copies `ms`'s
original registry entry. -/
theorem repairStep_c1_est (t : TrioD) (g : GedD) (keep : List PId)
    (acc acc' : TrioD × GedD) (v ms m f : PId)
    (hv : v ∈ keep) (htv : lookupA t v = some (m, f))
    (hone : (m ∈ keep ∧ f ∉ keep ∧ ms = f) ∨ (f ∈ keep ∧ m ∉ keep ∧ ms = m))
    (h : repairStep t g keep acc v = some acc') :
    lookupA acc'.1 v = some (m, f) ∧ lookupA acc'.1 ms = some (none, none) ∧
      lookupA acc'.2 ms = lookupA g ms := by
  simp only [repairStep] at h
  split at h
  next => cases h
  next ge hge =>
    split at h
    next => cases h
    next m' f' hmf =>
      rw [htv] at hmf
      injection hmf with hmf2
      injection hmf2 with hm1 hf1
      rw [← hm1, ← hf1] at h
      rcases hone with ⟨hmk, hfk, hms⟩ | ⟨hfk, hmk, hms⟩
      · rw [if_pos hmk, if_pos hfk] at h
        split at h
        next => cases h
        next gf hgf =>
          cases h
          rw [hms]
          have hfv : f ≠ v := fun he => hfk (he ▸ hv)
          refine ⟨lookupA_insertA_self _ _ _, ?_, ?_⟩
          · rw [lookupA_insertA_ne _ _ _ _ hfv]
            exact lookupA_insertA_self _ _ _
          · rw [lookupA_insertA_self, hgf]
      · rw [if_neg hmk, if_pos hfk] at h
        split at h
        next => cases h
        next gm hgm =>
          cases h
          rw [hms]
          have hmv : m ≠ v := fun he => hmk (he ▸ hv)
          refine ⟨lookupA_insertA_self _ _ _, ?_, ?_⟩
          · rw [lookupA_insertA_ne _ _ _ _ hmv]
            exact lookupA_insertA_self _ _ _
          · rw [lookupA_insertA_self, hgm]

/-- Preservation: later repair iterations (over kept ids) never disturb the
three facts established for `v` and its discarded parent `ms`. -/
theorem repairStep_c1_pres (t : TrioD) (g : GedD) (keep : List PId)
    (acc acc' : TrioD × GedD) (u v ms m f : PId)
    (hu : u ∈ keep) (hv : v ∈ keep)
    (htv : lookupA t v = some (m, f))
    (hone : (m ∈ keep ∧ f ∉ keep ∧ ms = f) ∨ (f ∈ keep ∧ m ∉ keep ∧ ms = m))
    (h1 : lookupA acc.1 v = some (m, f))
    (h2 : lookupA acc.1 ms = some (none, none))
    (h3 : lookupA acc.2 ms = lookupA g ms)
    (h : repairStep t g keep acc u = some acc') :
    lookupA acc'.1 v = some (m, f) ∧ lookupA acc'.1 ms = some (none, none) ∧
      lookupA acc'.2 ms = lookupA g ms := by
  have hmsk : ms ∉ keep := by
    rcases hone with ⟨_, hfk, hms⟩ | ⟨_, hmk, hms⟩
    · rw [hms]; exact hfk
    · rw [hms]; exact hmk
  have hums : u ≠ ms := fun he => hmsk (he ▸ hu)
  have hmsu : ms ≠ u := fun he => hums he.symm
  simp only [repairStep] at h
  split at h
  next => cases h
  next ge hge =>
    split at h
    next => cases h
    next mu fu hmfu =>
      by_cases huv : u = v
      · subst huv
        rw [htv] at hmfu
        injection hmfu with hmfu2
        injection hmfu2 with hm1 hf1
        rw [← hm1, ← hf1] at h
        rcases hone with ⟨hmk, hfk, hms⟩ | ⟨hfk, hmk, hms⟩
        · rw [if_pos hmk, if_pos hfk] at h
          split at h
          next => cases h
          next gf hgf =>
            cases h
            rw [hms]
            have hfv : f ≠ u := fun he => hfk (he ▸ hu)
            refine ⟨lookupA_insertA_self _ _ _, ?_, ?_⟩
            · rw [lookupA_insertA_ne _ _ _ _ hfv]
              exact lookupA_insertA_self _ _ _
            · rw [lookupA_insertA_self, hgf]
        · rw [if_neg hmk, if_pos hfk] at h
          split at h
          next => cases h
          next gm hgm =>
            cases h
            rw [hms]
            have hmv : m ≠ u := fun he => hmk (he ▸ hu)
            refine ⟨lookupA_insertA_self _ _ _, ?_, ?_⟩
            · rw [lookupA_insertA_ne _ _ _ _ hmv]
              exact lookupA_insertA_self _ _ _
            · rw [lookupA_insertA_self, hgm]
      · have hvu : v ≠ u := fun he => huv he.symm
        split at h
        next hmk =>
          split at h
          next hfk =>
            split at h
            next => cases h
            next gf hgf =>
              cases h
              have hfu : fu ∉ keep := hfk
              have hfuv : v ≠ fu := fun he => hfu (he ▸ hv)
              refine ⟨?_, ?_, ?_⟩
              · rw [lookupA_insertA_ne _ _ _ _ hvu, lookupA_insertA_ne _ _ _ _ hfuv]
                exact h1
              · rw [lookupA_insertA_ne _ _ _ _ hmsu]
                by_cases hfms : ms = fu
                · rw [hfms]
                  exact lookupA_insertA_self _ _ _
                · rw [lookupA_insertA_ne _ _ _ _ hfms]
                  exact h2
              · by_cases hfms : ms = fu
                · rw [hfms]
                  rw [lookupA_insertA_self]
                  rw [hgf]
                · rw [lookupA_insertA_ne _ _ _ _ hfms,
                    lookupA_insertA_ne _ _ _ _ hmsu]
                  exact h3
          next hfk =>
            cases h
            refine ⟨?_, ?_, ?_⟩
            · rw [lookupA_insertA_ne _ _ _ _ hvu]
              exact h1
            · rw [lookupA_insertA_ne _ _ _ _ hmsu]
              exact h2
            · rw [lookupA_insertA_ne _ _ _ _ hmsu]
              exact h3
        next hmk =>
          split at h
          next hfk =>
            split at h
            next => cases h
            next gm hgm =>
              cases h
              have hmu : mu ∉ keep := hmk
              have hmuv : v ≠ mu := fun he => hmu (he ▸ hv)
              refine ⟨?_, ?_, ?_⟩
              · rw [lookupA_insertA_ne _ _ _ _ hvu, lookupA_insertA_ne _ _ _ _ hmuv]
                exact h1
              · rw [lookupA_insertA_ne _ _ _ _ hmsu]
                by_cases hmms : ms = mu
                · rw [hmms]
                  exact lookupA_insertA_self _ _ _
                · rw [lookupA_insertA_ne _ _ _ _ hmms]
                  exact h2
              · by_cases hmms : ms = mu
                · rw [hmms]
                  rw [lookupA_insertA_self]
                  rw [hgm]
                · rw [lookupA_insertA_ne _ _ _ _ hmms,
                    lookupA_insertA_ne _ _ _ _ hmsu]
                  exact h3
          next hfk =>
            cases h
            refine ⟨?_, ?_, ?_⟩
            · rw [lookupA_insertA_ne _ _ _ _ hvu]
              exact h1
            · rw [lookupA_insertA_ne _ _ _ _ hmsu]
              exact h2
            · rw [lookupA_insertA_ne _ _ _ _ hmsu]
              exact h3

theorem repairLoop_c1_pres (t : TrioD) (g : GedD) (keep : List PId)
    (v ms m f : PId) (hv : v ∈ keep) (htv : lookupA t v = some (m, f))
    (hone : (m ∈ keep ∧ f ∉ keep ∧ ms = f) ∨ (f ∈ keep ∧ m ∉ keep ∧ ms = m)) :
    ∀ (l : List PId) (acc r : TrioD × GedD), (∀ u ∈ l, u ∈ keep) →
      (lookupA acc.1 v = some (m, f) ∧ lookupA acc.1 ms = some (none, none) ∧
        lookupA acc.2 ms = lookupA g ms) →
      repairLoop t g keep l acc = some r →
      lookupA r.1 v = some (m, f) ∧ lookupA r.1 ms = some (none, none) ∧
        lookupA r.2 ms = lookupA g ms := by
  intro l
  induction l with
  | nil =>
    intro acc r _ hinv h
    simp only [repairLoop] at h
    cases h
    exact hinv
  | cons u rest ih =>
    intro acc r hl hinv h
    simp only [repairLoop] at h
    split at h
    next acc' hstep =>
      exact ih acc' r (fun w hw => hl w (List.mem_cons_of_mem _ hw))
        (repairStep_c1_pres t g keep acc acc' u v ms m f
          (hl u (List.mem_cons_self _ _)) hv htv hone hinv.1 hinv.2.1 hinv.2.2 hstep) h
    next => cases h

theorem repairStep_keys_sub_g (t : TrioD) (g : GedD) (keep : List PId)
    (acc acc' : TrioD × GedD) (u : PId)
    (hacc : ∀ k ∈ keysA acc.2, k ∈ keysA g)
    (h : repairStep t g keep acc u = some acc') : ∀ k ∈ keysA acc'.2, k ∈ keysA g := by
  simp only [repairStep] at h
  split at h
  next => cases h
  next ge hge =>
    have hu : u ∈ keysA g := mem_keysA_of_lookupA _ _ _ hge
    have hng : ∀ k ∈ keysA (insertA acc.2 u ge), k ∈ keysA g := by
      intro k hk
      rcases (keysA_insertA _ _ _ _).mp hk with hk' | hk'
      · rw [hk']; exact hu
      · exact hacc k hk'
    split at h
    next => cases h
    next mu fu hmfu =>
      split at h
      next hmk =>
        split at h
        next hfk =>
          split at h
          next => cases h
          next gf hgf =>
            cases h
            intro k hk
            rcases (keysA_insertA _ _ _ _).mp hk with hk' | hk'
            · rw [hk']
              exact mem_keysA_of_lookupA _ _ _ hgf
            · exact hng k hk'
        next hfk =>
          cases h
          exact hng
      next hmk =>
        split at h
        next hfk =>
          split at h
          next => cases h
          next gm hgm =>
            cases h
            intro k hk
            rcases (keysA_insertA _ _ _ _).mp hk with hk' | hk'
            · rw [hk']
              exact mem_keysA_of_lookupA _ _ _ hgm
            · exact hng k hk'
        next hfk =>
          cases h
          exact hng

theorem repairLoop_keys_sub_g (t : TrioD) (g : GedD) (keep : List PId) :
    ∀ (l : List PId) (acc r : TrioD × GedD),
      (∀ k ∈ keysA acc.2, k ∈ keysA g) → repairLoop t g keep l acc = some r →
      ∀ k ∈ keysA r.2, k ∈ keysA g := by
  intro l
  induction l with
  | nil =>
    intro acc r hacc h
    simp only [repairLoop] at h
    cases h
    exact hacc
  | cons u rest ih =>
    intro acc r hacc h
    simp only [repairLoop] at h
    split at h
    next acc' hstep =>
      exact ih acc' r (repairStep_keys_sub_g t g keep acc acc' u hacc hstep) h
    next => cases h

/-- C1 (amended): for a kept individual `v` with exactly one kept parent,
the pruner does NOT synthesize a placeholder. It keeps `v`'s output
parentage as the original pair `(m, f)`, re-adds the discarded parent `ms`
to the output registry with its original entry copied verbatim (original
name, sex, and placeholder flag), gives `ms` empty parentage in the output
table, and introduces no identifier that was not already a registry key. -/
theorem c1_pruner_reuses_discarded_parent (t : TrioD) (g : GedD) (x : Nat) (poi : PId)
    (keep : List PId) (t' : TrioD) (g' : GedD) (v ms m f : PId)
    (hkeep : pruneKeep t x poi = some keep)
    (hprune : find_persons_less_than_x_meioses_from_poi t g x poi = some (t', g'))
    (hv : v ∈ keep) (htv : lookupA t v = some (m, f))
    (hone : (m ∈ keep ∧ f ∉ keep ∧ ms = f) ∨ (f ∈ keep ∧ m ∉ keep ∧ ms = m)) :
    lookupA t' v = some (m, f) ∧ lookupA t' ms = some (none, none) ∧
      lookupA g' ms = lookupA g ms ∧ (∀ k ∈ keysA g', k ∈ keysA g) := by
  unfold find_persons_less_than_x_meioses_from_poi at hprune
  rw [hkeep] at hprune
  have hrun : repairLoop t g keep keep ([], []) = some (t', g') := hprune
  obtain ⟨l₁, l₂, hsplit⟩ := List.append_of_mem hv
  nth_rewrite 2 [hsplit] at hrun
  rw [repairLoop_append] at hrun
  cases hl1 : repairLoop t g keep l₁ ([], []) with
  | none =>
    rw [hl1] at hrun
    cases hrun
  | some acc₁ =>
    rw [hl1] at hrun
    simp only [repairLoop] at hrun
    cases hstep : repairStep t g keep acc₁ v with
    | none =>
      rw [hstep] at hrun
      cases hrun
    | some acc₂ =>
      rw [hstep] at hrun
      have hl2keep : ∀ u ∈ l₂, u ∈ keep := by
        intro u hu
        rw [hsplit]
        exact List.mem_append_right _ (List.mem_cons_of_mem _ hu)
      have hest := repairStep_c1_est t g keep acc₁ acc₂ v ms m f hv htv hone hstep
      have hfinal := repairLoop_c1_pres t g keep v ms m f hv htv hone l₂ acc₂ (t', g')
        hl2keep hest hrun
      refine ⟨hfinal.1, hfinal.2.1, hfinal.2.2, ?_⟩
      have hk1 : ∀ k ∈ keysA (([], []) : TrioD × GedD).2, k ∈ keysA g := by
        intro k hk
        cases hk
      have hk2 := repairLoop_keys_sub_g t g keep l₁ ([], []) acc₁ hk1 hl1
      have hk3 := repairStep_keys_sub_g t g keep acc₁ acc₂ v hk2 hstep
      exact repairLoop_keys_sub_g t g keep l₂ acc₂ (t', g') hk3 hrun

/-- Witness for `c1_pruner_reuses_discarded_parent` on `exFam` at cutoff 2:
kept child `C1`, kept mother `P1`, discarded father `G1`. -/
theorem c1_witness :
    lookupA exFamNewT (some "C1") = some (some "P1", some "G1") ∧
    lookupA exFamNewT (some "G1") = some (none, none) ∧
    lookupA exFamNewG (some "G1") = lookupA exFamG (some "G1") :=
  let H := c1_pruner_reuses_discarded_parent exFamT exFamG 2 (some "P1")
    [some "P1", some "C1"] exFamNewT exFamNewG (some "C1") (some "G1")
    (some "P1") (some "G1") rfl rfl (by decide) rfl
    (Or.inl ⟨by decide, by decide, rfl⟩)
  ⟨H.1, H.2.1, H.2.2.1⟩

/-! ## C2 -/

/-- An id re-added by the repair pass: a discarded parent of some kept
individual whose other parent was kept. -/
def ReAdded (t : TrioD) (keep : List PId) (k : PId) : Prop :=
  ∃ v m f, v ∈ keep ∧ lookupA t v = some (m, f) ∧
    ((k = f ∧ m ∈ keep ∧ f ∉ keep) ∨ (k = m ∧ f ∈ keep ∧ m ∉ keep))

theorem repairStep_adds_self (t : TrioD) (g : GedD) (keep : List PId)
    (acc acc' : TrioD × GedD) (u : PId) (h : repairStep t g keep acc u = some acc') :
    u ∈ keysA acc'.2 := by
  simp only [repairStep] at h
  split at h
  next => cases h
  next ge hge =>
    have hu : u ∈ keysA (insertA acc.2 u ge) := (keysA_insertA _ _ _ _).mpr (Or.inl rfl)
    split at h
    next => cases h
    next mu fu hmfu =>
      split at h
      next hmk =>
        split at h
        next hfk =>
          split at h
          next => cases h
          next gf hgf =>
            cases h
            exact (keysA_insertA _ _ _ _).mpr (Or.inr hu)
        next hfk =>
          cases h
          exact hu
      next hmk =>
        split at h
        next hfk =>
          split at h
          next => cases h
          next gm hgm =>
            cases h
            exact (keysA_insertA _ _ _ _).mpr (Or.inr hu)
        next hfk =>
          cases h
          exact hu

theorem repairStep_keys_mono (t : TrioD) (g : GedD) (keep : List PId)
    (acc acc' : TrioD × GedD) (u : PId) (h : repairStep t g keep acc u = some acc') :
    ∀ k ∈ keysA acc.2, k ∈ keysA acc'.2 := by
  simp only [repairStep] at h
  split at h
  next => cases h
  next ge hge =>
    have hng : ∀ k ∈ keysA acc.2, k ∈ keysA (insertA acc.2 u ge) :=
      fun k hk => (keysA_insertA _ _ _ _).mpr (Or.inr hk)
    split at h
    next => cases h
    next mu fu hmfu =>
      split at h
      next hmk =>
        split at h
        next hfk =>
          split at h
          next => cases h
          next gf hgf =>
            cases h
            exact fun k hk => (keysA_insertA _ _ _ _).mpr (Or.inr (hng k hk))
        next hfk =>
          cases h
          exact hng
      next hmk =>
        split at h
        next hfk =>
          split at h
          next => cases h
          next gm hgm =>
            cases h
            exact fun k hk => (keysA_insertA _ _ _ _).mpr (Or.inr (hng k hk))
        next hfk =>
          cases h
          exact hng

theorem repairLoop_keys_mono (t : TrioD) (g : GedD) (keep : List PId) :
    ∀ (l : List PId) (acc r : TrioD × GedD), repairLoop t g keep l acc = some r →
      ∀ k ∈ keysA acc.2, k ∈ keysA r.2 := by
  intro l
  induction l with
  | nil =>
    intro acc r h
    simp only [repairLoop] at h
    cases h
    exact fun k hk => hk
  | cons u rest ih =>
    intro acc r h
    simp only [repairLoop] at h
    split at h
    next acc' hstep =>
      exact fun k hk => ih acc' r h k (repairStep_keys_mono t g keep acc acc' u hstep k hk)
    next => cases h

theorem repairLoop_mem (t : TrioD) (g : GedD) (keep : List PId) :
    ∀ (l : List PId) (acc r : TrioD × GedD), repairLoop t g keep l acc = some r →
      ∀ v ∈ l, v ∈ keysA r.2 := by
  intro l
  induction l with
  | nil =>
    intro acc r _ v hv
    cases hv
  | cons u rest ih =>
    intro acc r h v hv
    simp only [repairLoop] at h
    split at h
    next acc' hstep =>
      rcases List.mem_cons.mp hv with hv' | hv'
      · rw [hv']
        exact repairLoop_keys_mono t g keep rest acc' r h u
          (repairStep_adds_self t g keep acc acc' u hstep)
      · exact ih acc' r h v hv'
    next => cases h

theorem repairStep_keys_chr (t : TrioD) (g : GedD) (keep : List PId)
    (acc acc' : TrioD × GedD) (u : PId) (hu : u ∈ keep)
    (h : repairStep t g keep acc u = some acc') :
    ∀ k ∈ keysA acc'.2, k ∈ keysA acc.2 ∨ k = u ∨ ReAdded t keep k := by
  simp only [repairStep] at h
  split at h
  next => cases h
  next ge hge =>
    have hng : ∀ k ∈ keysA (insertA acc.2 u ge), k ∈ keysA acc.2 ∨ k = u := by
      intro k hk
      rcases (keysA_insertA _ _ _ _).mp hk with hk' | hk'
      · exact Or.inr hk'
      · exact Or.inl hk'
    split at h
    next => cases h
    next mu fu hmfu =>
      split at h
      next hmk =>
        split at h
        next hfk =>
          split at h
          next => cases h
          next gf hgf =>
            cases h
            intro k hk
            rcases (keysA_insertA _ _ _ _).mp hk with hk' | hk'
            · exact Or.inr (Or.inr ⟨u, mu, fu, hu, hmfu, Or.inl ⟨hk', hmk, hfk⟩⟩)
            · rcases hng k hk' with hk'' | hk''
              · exact Or.inl hk''
              · exact Or.inr (Or.inl hk'')
        next hfk =>
          cases h
          intro k hk
          rcases hng k hk with hk' | hk'
          · exact Or.inl hk'
          · exact Or.inr (Or.inl hk')
      next hmk =>
        split at h
        next hfk =>
          split at h
          next => cases h
          next gm hgm =>
            cases h
            intro k hk
            rcases (keysA_insertA _ _ _ _).mp hk with hk' | hk'
            · exact Or.inr (Or.inr ⟨u, mu, fu, hu, hmfu, Or.inr ⟨hk', hfk, hmk⟩⟩)
            · rcases hng k hk' with hk'' | hk''
              · exact Or.inl hk''
              · exact Or.inr (Or.inl hk'')
        next hfk =>
          cases h
          intro k hk
          rcases hng k hk with hk' | hk'
          · exact Or.inl hk'
          · exact Or.inr (Or.inl hk')

theorem repairLoop_keys_chr (t : TrioD) (g : GedD) (keep : List PId) :
    ∀ (l : List PId) (acc r : TrioD × GedD), (∀ u ∈ l, u ∈ keep) →
      repairLoop t g keep l acc = some r →
      ∀ k ∈ keysA r.2, k ∈ keysA acc.2 ∨ k ∈ l ∨ ReAdded t keep k := by
  intro l
  induction l with
  | nil =>
    intro acc r _ h k hk
    simp only [repairLoop] at h
    cases h
    exact Or.inl hk
  | cons u rest ih =>
    intro acc r hl h k hk
    simp only [repairLoop] at h
    split at h
    next acc' hstep =>
      rcases ih acc' r (fun w hw => hl w (List.mem_cons_of_mem _ hw)) h k hk with
        hk' | hk' | hk'
      · rcases repairStep_keys_chr t g keep acc acc' u
          (hl u (List.mem_cons_self _ _)) hstep k hk' with hk'' | hk'' | hk''
        · exact Or.inl hk''
        · exact Or.inr (Or.inl (List.mem_cons.mpr (Or.inl hk'')))
        · exact Or.inr (Or.inr hk'')
      · exact Or.inr (Or.inl (List.mem_cons_of_mem _ hk'))
      · exact Or.inr (Or.inr hk')
    next => cases h

/-- C2 (amended): the pruned registry contains every individual whose
distance from the POI is strictly below the cutoff (the kept set computed
by the distance filter); the only ids it contains beyond the kept set are
discarded parents re-added by the repair pass — a discarded parent of a
kept individual whose other parent was kept (such a parent sits at distance
exactly `maxDistance`, violating the claimed strict bound; see
`c2_counterexample`). -/
theorem c2_pruned_registry_membership (t : TrioD) (g : GedD) (x : Nat) (poi : PId)
    (keep : List PId) (t' : TrioD) (g' : GedD)
    (hkeep : pruneKeep t x poi = some keep)
    (hprune : find_persons_less_than_x_meioses_from_poi t g x poi = some (t', g')) :
    (∀ v ∈ keep, v ∈ keysA g') ∧
    (∀ k ∈ keysA g', k ∈ keep ∨ ReAdded t keep k) := by
  unfold find_persons_less_than_x_meioses_from_poi at hprune
  rw [hkeep] at hprune
  have hrun : repairLoop t g keep keep ([], []) = some (t', g') := hprune
  refine ⟨?_, ?_⟩
  · exact fun v hv => repairLoop_mem t g keep keep ([], []) (t', g') hrun v hv
  · intro k hk
    rcases repairLoop_keys_chr t g keep keep ([], []) (t', g') (fun u hu => hu)
      hrun k hk with hk' | hk' | hk'
    · cases hk'
    · exact Or.inl hk'
    · exact Or.inr hk'

/-- Witness for `c2_pruned_registry_membership` on `exFam` at cutoff 2:
the kept ids `P1`, `C1` are in the pruned registry, and its third key `G1`
is a re-added discarded parent. -/
theorem c2_witness :
    (some "C1") ∈ keysA exFamNewG ∧
    ((some "G1") ∈ [some "P1", some "C1"] ∨
      ReAdded exFamT [some "P1", some "C1"] (some "G1")) :=
  ⟨(c2_pruned_registry_membership exFamT exFamG 2 (some "P1")
      [some "P1", some "C1"] exFamNewT exFamNewG rfl rfl).1 (some "C1") (by decide),
   (c2_pruned_registry_membership exFamT exFamG 2 (some "P1")
      [some "P1", some "C1"] exFamNewT exFamNewG rfl rfl).2 (some "G1") (by decide)⟩

end Gedcom
